import Mathlib

/-!
# Fused tile partitioner (`src/model/ftp.cpp`, `src/model/ftp.hpp`)

A shallow embedding of `daicon::distributed::FusedTilePartitioner` and of the
value types `TileDimensions` and `LayerTile`, followed by theorems about the
embedded functions.

Conventions of the embedding.

* C++ `int` / `int32_t` values are unbounded `Int`s: signed overflow is
  undefined behaviour in C++ and is not modelled.  The one unsigned
  computation whose wrap-around is observable, `nFusedLayers_ - 1` on
  `uint32_t`, is modelled with an explicit `% 2^32` (`lastLayer`).
* `float` data is only ever copied, never computed with, so buffers are lists
  over an arbitrary element type.
* The one floating-point computation, `std::ceil((float)a / (float)b)` stored
  into an `int32_t` (lines 65-66), is embedded in integer arithmetic as
  IEEE-754 binary32 with round to nearest, ties to even (`strideOf`): it agrees
  with the exact integer ceiling (`ceilDiv`) below `2^24` and can differ above.
* The three-level `std::map` `tiles_` is embedded as a finite map on
  `(row, col, layer)` triples, written as a lookup function into `Option`.
  A triple is present exactly when all three nested lookups succeed.  Empty
  inner maps are not represented: every access in the class indexes three
  levels deep, so they cannot be observed.
* Dereferencing a layer the model does not have, converting a floating-point
  value that does not fit to `int32_t`, and reading or writing outside a
  buffer, are undefined behaviour in C++; the embedding returns `none` there.
-/

namespace Ftp

/-! ## Data model (`ftp.hpp`) -/

/-- Class `TileDimensions`: an inclusive region with its stored sizes. -/
structure TileDimensions where
  startw : Int
  endw : Int
  starth : Int
  endh : Int
  width : Int
  height : Int
deriving DecidableEq

/-- Default constructor `TileDimensions()`: every field is zero. -/
def TileDimensions.zero : TileDimensions :=
  { startw := 0, endw := 0, starth := 0, endh := 0, width := 0, height := 0 }

/-- Constructor `TileDimensions(int sw, int sh, int ew, int eh)`. -/
def TileDimensions.ofBounds (sw sh ew eh : Int) : TileDimensions :=
  { startw := sw, endw := ew, starth := sh, endh := eh,
    width := ew - sw + 1, height := eh - sh + 1 }

/-- Cell `(row, col)` lies in the region (inclusive bounds on both axes). -/
def TileDimensions.contains (t : TileDimensions) (row col : Int) : Prop :=
  t.starth ≤ row ∧ row ≤ t.endh ∧ t.startw ≤ col ∧ col ≤ t.endw

instance (t : TileDimensions) (row col : Int) : Decidable (t.contains row col) := by
  unfold TileDimensions.contains
  infer_instance

/-- The stored sizes are the derived ones: `width = endw - startw + 1` and
`height = endh - starth + 1`. -/
def TileDimensions.derived (t : TileDimensions) : Prop :=
  t.width = t.endw - t.startw + 1 ∧ t.height = t.endh - t.starth + 1

instance (t : TileDimensions) : Decidable t.derived := by
  unfold TileDimensions.derived
  infer_instance

/-- Class `LayerTile`: the input and output region of one tile at one layer. -/
structure LayerTile where
  input : TileDimensions
  output : TileDimensions
deriving DecidableEq

/-- Default constructor `LayerTile()`: both regions default-constructed. -/
def LayerTile.empty : LayerTile :=
  { input := TileDimensions.zero, output := TileDimensions.zero }

/-- The layer kinds the partitioner distinguishes; every other value of
darknet's `LAYER_TYPE` is `OTHER`. -/
inductive LayerType where
  | CONVOLUTIONAL
  | MAXPOOL
  | OTHER
deriving DecidableEq

/-- The fields of darknet's `layer` that the partitioner reads. -/
structure Layer where
  type : LayerType
  stride : Int
  size : Int
  w : Int
  h : Int
  out_w : Int
  out_h : Int
deriving DecidableEq

/-- The model view: an ordered, indexable sequence of layer descriptors. -/
structure Model where
  layers : List Layer

/-- Modelled from the spec: `Model::getLayer` (declared in `darknet/model.hpp`,
which is not part of the sources) gives ordered, indexable access to the layer
descriptors.  Asking for a layer the model does not have yields `none`; the
callers dereference the result unconditionally. -/
def Model.getLayer (m : Model) (i : Nat) : Option Layer :=
  m.layers[i]?

/-! ## The grid `tiles_` -/

/-- The member `tiles_`, as a finite map on `(row, col, layer)`: `find h w l`
is the entry stored under the key, `none` when the key is absent. -/
structure Grid where
  find : Nat → Nat → Nat → Option LayerTile

/-- A freshly constructed `tiles_`: no key present. -/
def Grid.empty : Grid := { find := fun _ _ _ => none }

/-- The value of the expression `tiles_[h][w][l]`: the stored entry, or a
default-constructed `LayerTile` when the key is absent. -/
def Grid.get (g : Grid) (h w l : Nat) : LayerTile :=
  (g.find h w l).getD LayerTile.empty

/-- Store `t` under `(h, w, l)`. -/
def Grid.set (g : Grid) (h w l : Nat) (t : LayerTile) : Grid :=
  { find := fun h' w' l' => if h' = h ∧ w' = w ∧ l' = l then some t else g.find h' w' l' }

/-- The effect on `tiles_` of merely evaluating `tiles_[h][w][l]`:
`std::map::operator[]` inserts a default entry when the key is absent. -/
def Grid.touch (g : Grid) (h w l : Nat) : Grid :=
  g.set h w l (g.get h w l)

/-- Assignment `tiles_[h] = std::map<...>()`: row `h` loses all its keys. -/
def Grid.clearRow (g : Grid) (h : Nat) : Grid :=
  { find := fun h' w' l' => if h' = h then none else g.find h' w' l' }

/-- Assignment `tiles_[h][w] = std::map<...>()`: tile `(h, w)` loses all its keys. -/
def Grid.clearTile (g : Grid) (h w : Nat) : Grid :=
  { find := fun h' w' l' => if h' = h ∧ w' = w then none else g.find h' w' l' }

/-- Assignment `tiles_[h][w][l].output = t`. -/
def Grid.setOutput (g : Grid) (h w l : Nat) (t : TileDimensions) : Grid :=
  g.set h w l { g.get h w l with output := t }

/-- Assignment `tiles_[h][w][l].input = t`. -/
def Grid.setInput (g : Grid) (h w l : Nat) (t : TileDimensions) : Grid :=
  g.set h w l { g.get h w l with input := t }

/-! ## `createInputTile` (`ftp.cpp` lines 103-123) -/

/-- Method `createInputTile`.  `tile` starts default-constructed; the two
branches set the four bounds; when neither branch is taken the bounds stay
zero.  Width and height are then recomputed in every case.  The C++ `/` on
`int` truncates, which is `Int.tdiv`. -/
def createInputTile (outputTile : TileDimensions) (l : Layer) : TileDimensions :=
  let tile : TileDimensions :=
    if l.type = LayerType.CONVOLUTIONAL then
      { TileDimensions.zero with
        startw := max (outputTile.startw * l.stride - Int.tdiv l.size 2) 0
        endw := min (outputTile.endw * l.stride + Int.tdiv l.size 2) (l.w - 1)
        starth := max (outputTile.starth * l.stride - Int.tdiv l.size 2) 0
        endh := min (outputTile.endh * l.stride + Int.tdiv l.size 2) (l.h - 1) }
    else if l.type = LayerType.MAXPOOL then
      { TileDimensions.zero with
        startw := outputTile.startw * l.stride
        endw := outputTile.endw * l.stride + l.stride - 1
        starth := outputTile.starth * l.stride
        endh := outputTile.endh * l.stride + l.stride - 1 }
    else TileDimensions.zero
  { tile with
    width := tile.endw - tile.startw + 1
    height := tile.endh - tile.starth + 1 }

/-! ## `setupTiles` (`ftp.cpp` lines 42-95) -/

/-- The first loop nest of `setupTiles` (lines 48-56): create the entries. -/
def createTiles (H W L : Nat) (g : Grid) : Grid :=
  (List.range H).foldl (fun gh h =>
    (List.range W).foldl (fun gw w =>
      (List.range L).foldl (fun gl l => gl.set h w l LayerTile.empty)
        (gw.clearTile h w))
      (gh.clearRow h)) g

/-- The `uint32_t` expression `nFusedLayers_ - 1`. -/
def lastLayer (L : Nat) : Nat := (L + 4294967295) % 4294967296

/-- The exact integer ceiling of `a / b`: the stride as the specification
states it (`ceil (extent / partitions)`).  The code computes its stride in
floating point, see `strideOf`. -/
def ceilDiv (a : Int) (b : Nat) : Int := (a + (b : Int) - 1) / (b : Int)

/-! ### The stride computation (`ftp.cpp` lines 65-66) in binary32 arithmetic -/

/-- The integer nearest to `n / d`, a tie going to the even one. -/
def roundHalfEven (n d : Nat) : Nat :=
  if d < 2 * (n % d) ∨ (2 * (n % d) = d ∧ (n / d) % 2 = 1) then n / d + 1 else n / d

/-- How many times `b` must be doubled until `a < 2^24 * b`, at most `fuel`
times: the number of low bits that do not fit a 24-bit significand. -/
def shiftDown : Nat → Nat → Nat → Nat
  | 0, _, _ => 0
  | fuel + 1, a, b => if 16777216 * b ≤ a then shiftDown fuel a (2 * b) + 1 else 0

/-- How many times `a` must be doubled until `2^23 * b ≤ a`, at most `fuel`
times: the number of fraction bits a 24-bit significand leaves. -/
def shiftUp : Nat → Nat → Nat → Nat
  | 0, _, _ => 0
  | fuel + 1, a, b => if a < 8388608 * b then shiftUp fuel (2 * a) b + 1 else 0

/-- The binary32 number nearest to `a / b` (round to nearest, ties to even),
as a fraction `(numerator, denominator)` whose denominator is a power of two:
the quotient is scaled so that its integer part has 24 bits, rounded there, and
scaled back.  The fuel 64 covers every quotient of a 32-bit value by a 32-bit
value; such quotients neither overflow nor underflow binary32. -/
def f32Quot (a b : Nat) : Nat × Nat :=
  (roundHalfEven (a * 2 ^ shiftUp 64 a b) (b * 2 ^ shiftDown 64 a b) * 2 ^ shiftDown 64 a b,
    2 ^ shiftUp 64 a b)

/-- The conversion `(float)n` of a non-negative integer: the binary32 number
nearest to `n`, which is again an integer. -/
def natToF32 (n : Nat) : Nat :=
  (f32Quot n 1).1 / (f32Quot n 1).2

/-- The value stored by `int32_t stride = std::ceil((float)a / (float)b)`
(lines 65 and 66) for an `int32_t` `a` and a `uint32_t` `b`, in IEEE-754
binary32 arithmetic with round to nearest, ties to even: both operands are
converted, the quotient is rounded, `std::ceil` is exact, and the conversion to
`int32_t` is defined only when the value fits.  The result is `none` where the
C++ behaviour is undefined: for `b = 0` the quotient is an infinity or a NaN,
and a ceiling outside the `int32_t` range cannot be converted.  A negative `a`
gives the negated quotient of the magnitudes, whose ceiling is the negated
floor. -/
def strideOf (a : Int) (b : Nat) : Option Int :=
  if b = 0 then none
  else
    let q := f32Quot (natToF32 a.natAbs) (natToF32 b)
    let r : Int :=
      if 0 ≤ a then (((q.1 + q.2 - 1) / q.2 : Nat) : Int) else -((q.1 / q.2 : Nat) : Int)
    if -2147483648 ≤ r ∧ r < 2147483648 then some r else none

/-- The variables carried around one axis of the seeding loops: the running
`start`, the running `end` and the grid. -/
structure Sweep where
  start : Int
  stop : Int
  tiles : Grid

/-- One iteration of the inner seeding loop (lines 74-76). -/
def seedColStep (stridew layerw starth endh : Int) (h last : Nat) (s : Sweep) (w : Nat) : Sweep :=
  { start := s.stop + 1
    stop := min (s.stop + stridew) (layerw - 1)
    tiles := s.tiles.setOutput h w last (TileDimensions.ofBounds s.start starth s.stop endh) }

/-- One iteration of the outer seeding loop (lines 71-79). -/
def seedRowStep (W : Nat) (stridew strideh layerw layerh : Int) (last : Nat) (s : Sweep) (h : Nat) : Sweep :=
  { start := s.stop + 1
    stop := min (s.stop + strideh) (layerh - 1)
    tiles := ((List.range W).foldl (seedColStep stridew layerw s.start s.stop h last)
      { start := 0, stop := stridew - 1, tiles := s.tiles }).tiles }

/-- The seeding loops of `setupTiles` (lines 68-80). -/
def seedTiles (W H : Nat) (stridew strideh layerw layerh : Int) (last : Nat) (g : Grid) : Grid :=
  ((List.range H).foldl (seedRowStep W stridew strideh layerw layerh last)
    { start := 0, stop := strideh - 1, tiles := g }).tiles

/-- The innermost loop of the backward pass (lines 86-92) for tile `(h, w)`,
with `n` layers still to visit: the next layer visited is `n - 1`. -/
def propagateTile (m : Model) (h w : Nat) : Nat → Grid → Option Grid
  | 0, g => some g
  | l + 1, g =>
    match m.getLayer l with
    | none => none
    | some layer =>
      let g1 := g.setInput h w l (createInputTile (g.get h w l).output layer)
      let g2 := if 0 < l then g1.setOutput h w (l - 1) (g1.get h w l).input else g1
      propagateTile m h w l g2

/-- The backward pass of `setupTiles` (lines 84-94). -/
def propagateTiles (m : Model) (W H L : Nat) (g : Grid) : Option Grid :=
  (List.range H).foldlM (fun gh h =>
    (List.range W).foldlM (fun gw w => propagateTile m h w L gw) gh) g

/-- Method `setupTiles`, run on the freshly constructed (empty) `tiles_`. -/
def setupTiles (m : Model) (W H L : Nat) : Option Grid :=
  match m.getLayer (lastLayer L) with
  | none => none
  | some top =>
    let layerw := top.out_w
    let layerh := top.out_h
    match strideOf layerw W, strideOf layerh H with
    | some stridew, some strideh =>
      propagateTiles m W H L
        (seedTiles W H stridew strideh layerw layerh (lastLayer L)
          (createTiles H W L Grid.empty))
    | _, _ => none

/-- Lines 63-66 of `setupTiles` are defined: the model has layer
`nFusedLayers_ - 1` and both stride computations yield an `int32_t`.  With
`1 ≤ L ≤` the number of layers this is exactly the condition under which
`setupTiles` builds a grid (`setupTiles_spec`, `stridesDefined_of_setupTiles`). -/
def stridesDefined (m : Model) (W H L : Nat) : Bool :=
  match m.getLayer (lastLayer L) with
  | none => false
  | some top => (strideOf top.out_w W).isSome && (strideOf top.out_h H).isSome

/-- Class `FusedTilePartitioner`: the configuration and the grid. -/
structure FusedTilePartitioner where
  model : Model
  partitionWidth : Nat
  partitionHeight : Nat
  nFusedLayers : Nat
  tiles : Grid

/-- The constructor: store the parameters and run `setupTiles`. -/
def FusedTilePartitioner.create (m : Model) (partitionWidth partitionHeight nFusedLayers : Nat) :
    Option FusedTilePartitioner :=
  (setupTiles m partitionWidth partitionHeight nFusedLayers).map fun g =>
    { model := m, partitionWidth := partitionWidth, partitionHeight := partitionHeight,
      nFusedLayers := nFusedLayers, tiles := g }

/-! ## Cropping (`ftp.cpp` lines 125-178) -/

/-- The values taken by `i` in `for (int i = lo; i <= hi; i++)`. -/
def intRange (lo hi : Int) : List Int :=
  (List.range (hi + 1 - lo).toNat).map fun (k : Nat) => lo + (k : Int)

/-- Conversion of an `int` to the 64-bit `size_t`. -/
def toSizeT (x : Int) : Nat :=
  if 0 ≤ x then x.toNat else (x + 18446744073709551616).toNat

/-- Index of the source cell (line 160). -/
def dataIdx (layerh layerw c h w : Int) : Int :=
  w + layerw * (h + layerh * c)

/-- Index of the destination cell (line 161). -/
def croppedIdx (dims : TileDimensions) (c h w : Int) : Int :=
  (w - dims.startw) + dims.width * (h - dims.starth) + dims.height * dims.width * c

/-- Checked store `buf[i] = v`. -/
def writeAt {β : Type} (buf : List β) (i : Int) (v : β) : Option (List β) :=
  if 0 ≤ i ∧ i < (buf.length : Int) then some (buf.set i.toNat v) else none

/-- Checked load `data[i]`. -/
def readAt {β : Type} (data : List β) (i : Int) : Option β :=
  if 0 ≤ i then data[i.toNat]? else none

/-- The loop body of `cropData` (lines 160-162); the two running sums
`dataAvg` and `croppedAvg` only feed a log line and are left out.  A cell of
the destination is `none` until it is written. -/
def cropStep {α : Type} (dims : TileDimensions) (layerh layerw : Int) (data : List α)
    (c h w : Int) (buf : List (Option α)) : Option (List (Option α)) :=
  match readAt data (dataIdx layerh layerw c h w) with
  | none => none
  | some v => writeAt buf (croppedIdx dims c h w) (some v)

/-- Method `cropData`: allocate `nentries` cells, run the three loops, and
return the buffer together with the count stored through `len`. -/
def cropData {α : Type} (dims : TileDimensions) (layerh layerw layerc : Int) (data : List α) :
    Option (List (Option α) × Nat) :=
  let nentries := toSizeT (dims.height * dims.width * layerc)
  ((intRange 0 (layerc - 1)).foldlM (fun bc c =>
    (intRange dims.starth dims.endh).foldlM (fun bh h =>
      (intRange dims.startw dims.endw).foldlM (fun bw w =>
        cropStep dims layerh layerw data c h w bw) bh) bc)
    (List.replicate nentries none)).map fun buf => (buf, nentries)

/-- Method `cropDataFromInput`: the result of the crop and the grid after the
access `tiles_[h][w][l]`. -/
def cropDataFromInput {α : Type} (g : Grid) (h w l : Nat) (layerh layerw layerc : Int)
    (data : List α) : Option (List (Option α) × Nat) × Grid :=
  (cropData (g.get h w l).input layerh layerw layerc data, g.touch h w l)

/-- The region `relative` built in `cropDataFromRelative` (lines 134-142). -/
def relativeRegion (t : LayerTile) : TileDimensions :=
  let input := t.input
  let output := t.output
  let startw := output.startw - input.startw
  let endw := startw + (output.endw - output.startw)
  let starth := output.starth - input.starth
  let endh := starth + (output.endh - output.starth)
  { startw := startw, endw := endw, starth := starth, endh := endh,
    width := endw - startw + 1, height := endh - starth + 1 }

/-- Method `cropDataFromRelative`. -/
def cropDataFromRelative {α : Type} (g : Grid) (h w l : Nat) (layerh layerw layerc : Int)
    (data : List α) : Option (List (Option α) × Nat) × Grid :=
  (cropData (relativeRegion (g.get h w l)) layerh layerw layerc data, g.touch h w l)

/-! ## Queries (`ftp.cpp` lines 181-191) -/

/-- Method `getTileInputDimensions`: the region returned and the grid after
the access. -/
def getTileInputDimensions (g : Grid) (h w l : Nat) : TileDimensions × Grid :=
  ((g.get h w l).input, g.touch h w l)

/-- Method `getTileOutputDimensions`: the region returned and the grid after
the access. -/
def getTileOutputDimensions (g : Grid) (h w l : Nat) : TileDimensions × Grid :=
  ((g.get h w l).output, g.touch h w l)

/-! ## Traces of the loops, used to state what the loops compute -/

/-- The loop-carried pair `(start, end)` of one seeding loop at the entry of
iteration `i`: initialised to `(0, stride - 1)` (lines 68-69 and 71-72) and
advanced by `start = end + 1; end = min(end + stride, extent - 1)`
(lines 75-76 and 78-79). -/
def axisBounds (stride extent : Int) : Nat → Int × Int
  | 0 => (0, stride - 1)
  | i + 1 =>
    ((axisBounds stride extent i).2 + 1,
      min ((axisBounds stride extent i).2 + stride) (extent - 1))

/-- The value read from one tile's innermost map at layer `l`. -/
def colGet (c : Nat → Option LayerTile) (l : Nat) : LayerTile :=
  (c l).getD LayerTile.empty

/-- What the backward pass over layers `L-1 .. 0` does to one tile, relating
the tile's innermost map before (`c`) and after (`c'`): the output at `L-1` is
kept, every input is `createInputTile` of the output at the same layer, every
output below `L-1` is the input one layer up, keys at `L` and above are
untouched, and the keys below `L` are present. -/
def TileChain (m : Model) (L : Nat) (c c' : Nat → Option LayerTile) : Prop :=
  (colGet c' (L - 1)).output = (colGet c (L - 1)).output ∧
  (∀ l layer, l < L → m.getLayer l = some layer →
    (colGet c' l).input = createInputTile (colGet c' l).output layer) ∧
  (∀ l, l + 1 < L → (colGet c' l).output = (colGet c' (l + 1)).input) ∧
  (∀ l, L ≤ l → c' l = c l) ∧
  (∀ l, l < L → (c' l).isSome = true)

/-! ## Layer descriptors used in the examples -/

/-- A Convolutional layer descriptor. -/
def Layer.conv (stride size w h out_w out_h : Int) : Layer :=
  { type := LayerType.CONVOLUTIONAL, stride := stride, size := size, w := w, h := h,
    out_w := out_w, out_h := out_h }

/-- A MaxPool layer descriptor. -/
def Layer.pool (stride size w h out_w out_h : Int) : Layer :=
  { type := LayerType.MAXPOOL, stride := stride, size := size, w := w, h := h,
    out_w := out_w, out_h := out_h }

/-- A layer descriptor of a kind other than Convolutional and MaxPool. -/
def Layer.other (stride size w h out_w out_h : Int) : Layer :=
  { type := LayerType.OTHER, stride := stride, size := size, w := w, h := h,
    out_w := out_w, out_h := out_h }

/-! ## Loop bodies that store one value per index triple -/

/-- A loop body that, for the index `k`, loads a value (`rd k`, `none` when the
load is out of range) and stores it at position `ix k` of the buffer. -/
def scatterStep {K β : Type} (rd : K → Option β) (ix : K → Int) (buf : List β) (k : K) :
    Option (List β) :=
  match rd k with
  | none => none
  | some v => writeAt buf (ix k) v

/-! ## Re-insertion of a cropped buffer (the check of the crop/reinsert identity) -/

/-- Modelled from the spec: one store of the re-insertion described in the
crop/reinsert identity (section 8), which is not part of the sources.  Cell
`(c, h, w)` of the region receives the cropped value found at the offset
`cropData` wrote it to. -/
def reinsertStep {α : Type} (dims : TileDimensions) (layerh layerw : Int)
    (cropped : List (Option α)) (c h w : Int) (full : List α) : Option (List α) :=
  match readAt cropped (croppedIdx dims c h w) with
  | some (some v) => writeAt full (dataIdx layerh layerw c h w) v
  | _ => none

/-- Modelled from the spec: the re-insertion of the crop/reinsert identity
(section 8), which is not part of the sources.  The cropped values are
scattered into an all-zero array of shape `(layerh, layerw, layerc)` at the
offsets they were read from, channel by channel, row by row. -/
def reinsert {α : Type} (zero : α) (dims : TileDimensions) (layerh layerw layerc : Int)
    (cropped : List (Option α)) : Option (List α) :=
  (intRange 0 (layerc - 1)).foldlM (fun bc c =>
    (intRange dims.starth dims.endh).foldlM (fun bh h =>
      (intRange dims.startw dims.endw).foldlM (fun bw w =>
        reinsertStep dims layerh layerw cropped c h w bw) bh) bc)
    (List.replicate (toSizeT (layerh * layerw * layerc)) zero)

/-! ## The seed recurrence as the specification words it -/

/-- The specification's seed recurrence (section 4.1, phase 1), start of
interval `i`: `start_0 = 0` and `start_{i+1} = end_i + 1`, where
`end_i = min (start_i + stride - 1) (extent - 1)`. -/
def seedStart (stride extent : Int) : Nat → Int
  | 0 => 0
  | i + 1 => min (seedStart stride extent i + stride - 1) (extent - 1) + 1

/-- The specification's seed recurrence, end of interval `i`:
`end_i = min (start_i + stride - 1) (extent - 1)`. -/
def seedEnd (stride extent : Int) (i : Nat) : Int :=
  min (seedStart stride extent i + stride - 1) (extent - 1)

/-! ## The iterations of the copy loops -/

/-- The index triples `(c, h, w)` visited by the three loops of `cropData`
(lines 157-159), in the order they are visited. -/
def cropIterations (dims : TileDimensions) (layerc : Int) : List (Int × Int × Int) :=
  (intRange 0 (layerc - 1)).product
    ((intRange dims.starth dims.endh).product (intRange dims.startw dims.endw))

/-! ## Receptive-field rule -/

/-- C3: for a Convolutional layer with kernel size `k ≥ 0`, `createInputTile`
returns on each axis `start = max (out.start * s - k / 2) 0` and
`end = min (out.end * s + k / 2) (extent - 1)`; with stride 1 and kernel 3 on a
10x10 input, `[2,2] -> [2,2]` gives `[1,3] x [1,3]` and `[0,0] -> [0,0]` gives
`[0,1] x [0,1]`. -/
theorem createInputTile_convolutional (out : TileDimensions) (l : Layer)
    (hty : l.type = LayerType.CONVOLUTIONAL) (hk : 0 ≤ l.size) :
    ((createInputTile out l).startw = max (out.startw * l.stride - l.size / 2) 0 ∧
      (createInputTile out l).endw = min (out.endw * l.stride + l.size / 2) (l.w - 1) ∧
      (createInputTile out l).starth = max (out.starth * l.stride - l.size / 2) 0 ∧
      (createInputTile out l).endh = min (out.endh * l.stride + l.size / 2) (l.h - 1)) ∧
    (∀ ow oh : Int,
      createInputTile (TileDimensions.ofBounds 2 2 2 2)
          { type := LayerType.CONVOLUTIONAL, stride := 1, size := 3, w := 10, h := 10,
            out_w := ow, out_h := oh } = TileDimensions.ofBounds 1 1 3 3 ∧
      createInputTile (TileDimensions.ofBounds 0 0 0 0)
          { type := LayerType.CONVOLUTIONAL, stride := 1, size := 3, w := 10, h := 10,
            out_w := ow, out_h := oh } = TileDimensions.ofBounds 0 0 1 1) := by
  have hdiv : Int.tdiv l.size 2 = l.size / 2 := Int.tdiv_eq_ediv hk (by decide)
  refine ⟨?_, fun ow oh => ⟨rfl, rfl⟩⟩
  simp [createInputTile, hty, hdiv]

/-- Witness for C3 on a stride-2, kernel-5 layer. -/
theorem createInputTile_convolutional_witness :
    (createInputTile (TileDimensions.ofBounds 3 4 6 7)
        { type := LayerType.CONVOLUTIONAL, stride := 2, size := 5, w := 13, h := 20,
          out_w := 7, out_h := 10 }).endw = 12 := by
  have h := (createInputTile_convolutional (TileDimensions.ofBounds 3 4 6 7)
    { type := LayerType.CONVOLUTIONAL, stride := 2, size := 5, w := 13, h := 20,
      out_w := 7, out_h := 10 } rfl (by decide)).1.2.1
  rw [h]
  decide

/-- C4: for a MaxPool layer with stride `s`, `createInputTile` returns on each
axis `start = out.start * s` and `end = out.end * s + s - 1`, whatever the
input extent of the layer; with stride 2, `[0,0] -> [0,0]` gives `[0,1] x [0,1]`
and `[1,1] -> [1,1]` gives `[2,3] x [2,3]`. -/
theorem createInputTile_maxpool (out : TileDimensions) (l : Layer)
    (hty : l.type = LayerType.MAXPOOL) :
    ((createInputTile out l).startw = out.startw * l.stride ∧
      (createInputTile out l).endw = out.endw * l.stride + l.stride - 1 ∧
      (createInputTile out l).starth = out.starth * l.stride ∧
      (createInputTile out l).endh = out.endh * l.stride + l.stride - 1) ∧
    (∀ k w h ow oh : Int,
      createInputTile (TileDimensions.ofBounds 0 0 0 0)
          { type := LayerType.MAXPOOL, stride := 2, size := k, w := w, h := h,
            out_w := ow, out_h := oh } = TileDimensions.ofBounds 0 0 1 1 ∧
      createInputTile (TileDimensions.ofBounds 1 1 1 1)
          { type := LayerType.MAXPOOL, stride := 2, size := k, w := w, h := h,
            out_w := ow, out_h := oh } = TileDimensions.ofBounds 2 2 3 3) := by
  refine ⟨?_, fun k w h ow oh => ⟨rfl, rfl⟩⟩
  simp [createInputTile, hty]

/-- Witness for C4: a stride-3 pool whose input plane is only 4 wide; the end
column 8 is not clamped to 3. -/
theorem createInputTile_maxpool_witness :
    (createInputTile (TileDimensions.ofBounds 1 0 2 0)
        { type := LayerType.MAXPOOL, stride := 3, size := 3, w := 4, h := 4,
          out_w := 2, out_h := 2 }).endw = 8 := by
  have h := (createInputTile_maxpool (TileDimensions.ofBounds 1 0 2 0)
    { type := LayerType.MAXPOOL, stride := 3, size := 3, w := 4, h := 4,
      out_w := 2, out_h := 2 } rfl).1.2.1
  rw [h]
  decide

/-- C8: the region `cropDataFromRelative` hands to `cropData` has, on each axis,
`start = output.start - input.start` and `end = start + (output.end -
output.start)`; when the stored output region has the derived sizes, the
relative region has the same width and height. -/
theorem relativeRegion_spec {α : Type} (g : Grid) (h w l : Nat) (layerh layerw layerc : Int)
    (data : List α) :
    (cropDataFromRelative g h w l layerh layerw layerc data).1 =
        cropData (relativeRegion (g.get h w l)) layerh layerw layerc data ∧
    (relativeRegion (g.get h w l)).startw = (g.get h w l).output.startw - (g.get h w l).input.startw ∧
    (relativeRegion (g.get h w l)).endw = (relativeRegion (g.get h w l)).startw +
        ((g.get h w l).output.endw - (g.get h w l).output.startw) ∧
    (relativeRegion (g.get h w l)).starth = (g.get h w l).output.starth - (g.get h w l).input.starth ∧
    (relativeRegion (g.get h w l)).endh = (relativeRegion (g.get h w l)).starth +
        ((g.get h w l).output.endh - (g.get h w l).output.starth) ∧
    ((g.get h w l).output.derived →
      (relativeRegion (g.get h w l)).width = (g.get h w l).output.width ∧
      (relativeRegion (g.get h w l)).height = (g.get h w l).output.height) := by
  refine ⟨rfl, rfl, rfl, rfl, rfl, ?_⟩
  rintro ⟨hw, hh⟩
  simp only [relativeRegion, hw, hh]
  constructor <;> ring

/-- Witness for C8: a grid holding one tile with input `[1,6] x [1,6]` and
output `[2,5] x [3,4]`. -/
theorem relativeRegion_spec_witness :
    (relativeRegion ((Grid.empty.set 0 0 0
        { input := TileDimensions.ofBounds 1 1 6 6,
          output := TileDimensions.ofBounds 2 3 5 4 }).get 0 0 0)).width = 4 ∧
    (relativeRegion ((Grid.empty.set 0 0 0
        { input := TileDimensions.ofBounds 1 1 6 6,
          output := TileDimensions.ofBounds 2 3 5 4 }).get 0 0 0)).height = 2 := by
  have h := (relativeRegion_spec (Grid.empty.set 0 0 0
    { input := TileDimensions.ofBounds 1 1 6 6,
      output := TileDimensions.ofBounds 2 3 5 4 }) 0 0 0 1 1 1 ([] : List Nat)).2.2.2.2.2
    (by decide)
  rw [h.1, h.2]
  decide

/-! ## The grid: reading after writing -/

theorem Grid.find_set (g : Grid) (h w l : Nat) (t : LayerTile) (h' w' l' : Nat) :
    (g.set h w l t).find h' w' l' =
      if h' = h ∧ w' = w ∧ l' = l then some t else g.find h' w' l' := rfl

theorem Grid.get_eq_colGet (g : Grid) (h w l : Nat) : g.get h w l = colGet (g.find h w) l := rfl

theorem Grid.find_setInput (g : Grid) (h w l : Nat) (t : TileDimensions) (h' w' l' : Nat) :
    (g.setInput h w l t).find h' w' l' =
      if h' = h ∧ w' = w ∧ l' = l then some { g.get h w l with input := t }
      else g.find h' w' l' := rfl

theorem Grid.find_setOutput (g : Grid) (h w l : Nat) (t : TileDimensions) (h' w' l' : Nat) :
    (g.setOutput h w l t).find h' w' l' =
      if h' = h ∧ w' = w ∧ l' = l then some { g.get h w l with output := t }
      else g.find h' w' l' := rfl

/-! ## The backward pass on one tile -/

/-- The backward pass on tile `(h, w)` over the layers below `n` succeeds when
the model has those layers, touches no other tile, and leaves the tile's own
innermost map in the relation `TileChain`. -/
theorem propagateTile_spec (m : Model) (h w : Nat) :
    ∀ (n : Nat) (g : Grid), n ≤ m.layers.length →
      ∃ g', propagateTile m h w n g = some g' ∧
        (∀ h' w' l', ¬ (h' = h ∧ w' = w) → g'.find h' w' l' = g.find h' w' l') ∧
        TileChain m n (g.find h w) (g'.find h w) := by
  intro n
  induction n with
  | zero =>
    intro g _
    refine ⟨g, rfl, fun _ _ _ _ => rfl, rfl, ?_, ?_, fun _ _ => rfl, ?_⟩
    · intro l layer hl; omega
    · intro l hl; omega
    · intro l hl; omega
  | succ l ih =>
    intro g hlen
    have hl : l < m.layers.length := by omega
    obtain ⟨layer, hlayer⟩ : ∃ layer, m.getLayer l = some layer :=
      ⟨m.layers.get ⟨l, hl⟩, by simp [Model.getLayer, List.getElem?_eq_getElem hl]⟩
    obtain ⟨g', hg', hframe, htop, hin, hch, habove, hpres⟩ :=
      ih (if 0 < l then
            (g.setInput h w l (createInputTile (g.get h w l).output layer)).setOutput h w (l - 1)
              ((g.setInput h w l (createInputTile (g.get h w l).output layer)).get h w l).input
          else g.setInput h w l (createInputTile (g.get h w l).output layer)) (by omega)
    refine ⟨g', ?_, ?_, ?_⟩
    · simp only [propagateTile, hlayer]
      exact hg'
    · intro h' w' l' hne
      have hk : ∀ x, ¬ (h' = h ∧ w' = w ∧ l' = x) := fun x hx => hne ⟨hx.1, hx.2.1⟩
      rw [hframe h' w' l' hne]
      split_ifs
      · rw [Grid.find_setOutput, Grid.find_setInput, if_neg (hk _), if_neg (hk _)]
      · rw [Grid.find_setInput, if_neg (hk _)]
    · -- the entry at layer `l` after the step
      have hl_find : g'.find h w l =
          some { g.get h w l with input := createInputTile (g.get h w l).output layer } := by
        rw [habove l (le_refl l)]
        split_ifs with h0
        · rw [Grid.find_setOutput, Grid.find_setInput]
          have : ¬ (l = l - 1) := by omega
          simp [this]
        · rw [Grid.find_setInput]
          simp
      have hl_get : colGet (g'.find h w) l =
          { g.get h w l with input := createInputTile (g.get h w l).output layer } := by
        simp [colGet, hl_find]
      refine ⟨?_, ?_, ?_, ?_, ?_⟩
      · simp only [Nat.add_sub_cancel]
        rw [hl_get]
        rfl
      · intro l' layer' hl' hlay
        rcases Nat.lt_succ_iff_lt_or_eq.mp hl' with hlt | heq
        · exact hin l' layer' hlt hlay
        · subst heq
          rw [hlayer] at hlay
          cases hlay
          rw [hl_get]
      · intro l' hl'
        have hl'' : l' + 1 < l ∨ l' + 1 = l := by omega
        rcases hl'' with hlt | heq
        · exact hch l' hlt
        · subst heq
          simp only [Nat.add_sub_cancel, Nat.succ_pos, if_true] at htop
          rw [htop, hl_get]
          simp [colGet, Grid.find_setOutput, Grid.get, Grid.find_setInput]
      · intro l' hl'
        rw [habove l' (by omega)]
        have h1 : ¬ (l' = l) := by omega
        have h2 : ¬ (l' = l - 1) := by omega
        split_ifs
        · rw [Grid.find_setOutput, Grid.find_setInput]
          simp [h1, h2]
        · rw [Grid.find_setInput]
          simp [h1]
      · intro l' hl'
        rcases Nat.lt_succ_iff_lt_or_eq.mp hl' with hlt | heq
        · exact hpres l' hlt
        · subst heq
          rw [hl_find]
          rfl

/-! ## Nested loops as one loop over the product of the index ranges -/

/-- A loop nest whose inner range does not depend on the outer index runs the
body over the product list, in the same order. -/
theorem foldlM_product {σ A B : Type} (f : σ → A → B → Option σ) (bs : List B) :
    ∀ (as : List A) (s : σ),
      as.foldlM (fun s a => bs.foldlM (fun s b => f s a b) s) s =
        (as.product bs).foldlM (fun s p => f s p.1 p.2) s := by
  intro as
  induction as with
  | nil => intro s; rfl
  | cons a as ih =>
    intro s
    have hprod : (a :: as).product bs = bs.map (Prod.mk a) ++ as.product bs := rfl
    rw [hprod, List.foldlM_append, List.foldlM_map, List.foldlM_cons]
    cases hb : bs.foldlM (fun s b => f s a b) s with
    | none => rfl
    | some s' => exact ih s'

/-- The backward pass over a duplicate-free list of tiles succeeds when the
model has the layers, touches no tile outside the list, and leaves every
listed tile in the relation `TileChain`. -/
theorem propagateList_spec (m : Model) (L : Nat) (hL : L ≤ m.layers.length) :
    ∀ (ps : List (Nat × Nat)), ps.Nodup → ∀ g : Grid,
      ∃ g', ps.foldlM (fun g p => propagateTile m p.1 p.2 L g) g = some g' ∧
        (∀ h' w' l', (h', w') ∉ ps → g'.find h' w' l' = g.find h' w' l') ∧
        (∀ p ∈ ps, TileChain m L (g.find p.1 p.2) (g'.find p.1 p.2)) := by
  intro ps
  induction ps with
  | nil =>
    intro _ g
    exact ⟨g, rfl, fun _ _ _ _ => rfl, fun p hp => absurd hp (List.not_mem_nil p)⟩
  | cons p ps ih =>
    intro hnd g
    obtain ⟨hp, hnd'⟩ := List.nodup_cons.mp hnd
    obtain ⟨g1, hg1, hframe1, hchain1⟩ := propagateTile_spec m p.1 p.2 L g hL
    obtain ⟨g', hg', hframe, hchain⟩ := ih hnd' g1
    refine ⟨g', ?_, ?_, ?_⟩
    · rw [List.foldlM_cons, hg1]
      exact hg'
    · intro h' w' l' hnot
      have h1 : (h', w') ∉ ps := fun hm => hnot (List.mem_cons_of_mem _ hm)
      have h2 : ¬ (h' = p.1 ∧ w' = p.2) := by
        rintro ⟨rfl, rfl⟩
        exact hnot (List.mem_cons_self _ _)
      rw [hframe h' w' l' h1, hframe1 h' w' l' h2]
    · intro q hq
      rcases List.mem_cons.mp hq with rfl | hq
      · have e : g'.find q.1 q.2 = g1.find q.1 q.2 := by
          funext l'
          exact hframe q.1 q.2 l' hp
        rw [e]
        exact hchain1
      · have hne : ¬ (q.1 = p.1 ∧ q.2 = p.2) := by
          rintro ⟨h1, h2⟩
          have : q = p := Prod.ext h1 h2
          exact hp (this ▸ hq)
        have e : g1.find q.1 q.2 = g.find q.1 q.2 := by
          funext l'
          exact hframe1 q.1 q.2 l' hne
        rw [← e]
        exact hchain q hq

/-- The backward pass of `setupTiles` succeeds when the model has the `L`
layers, changes nothing outside the `H x W` tiles, and leaves each of them in
the relation `TileChain`. -/
theorem propagateTiles_spec (m : Model) (W H L : Nat) (hL : L ≤ m.layers.length) (g : Grid) :
    ∃ g', propagateTiles m W H L g = some g' ∧
      (∀ h w l, ¬ (h < H ∧ w < W) → g'.find h w l = g.find h w l) ∧
      (∀ h w, h < H → w < W → TileChain m L (g.find h w) (g'.find h w)) := by
  obtain ⟨g', hg', hframe, hchain⟩ :=
    propagateList_spec m L hL ((List.range H).product (List.range W))
      (List.Nodup.product (List.nodup_range H) (List.nodup_range W)) g
  refine ⟨g', ?_, ?_, ?_⟩
  · unfold propagateTiles
    rw [foldlM_product (fun g h w => propagateTile m h w L g)]
    exact hg'
  · intro h w l hnot
    apply hframe
    intro hm
    rw [List.pair_mem_product, List.mem_range, List.mem_range] at hm
    exact hnot hm
  · intro h w hh hw
    exact hchain (h, w) (by
      rw [List.pair_mem_product, List.mem_range, List.mem_range]
      exact ⟨hh, hw⟩)

/-! ## The creation loops -/

theorem Grid.find_clearTile (g : Grid) (h w h' w' l' : Nat) :
    (g.clearTile h w).find h' w' l' = if h' = h ∧ w' = w then none else g.find h' w' l' := rfl

theorem Grid.find_clearRow (g : Grid) (h h' w' l' : Nat) :
    (g.clearRow h).find h' w' l' = if h' = h then none else g.find h' w' l' := rfl

theorem createLayers_find (h w : Nat) (g0 : Grid) (h' w' l' : Nat) :
    ∀ n : Nat,
      ((List.range n).foldl (fun gl l => gl.set h w l LayerTile.empty) g0).find h' w' l' =
        if h' = h ∧ w' = w ∧ l' < n then some LayerTile.empty else g0.find h' w' l' := by
  intro n
  induction n with
  | zero => simp
  | succ n ih =>
    rw [List.range_succ, List.foldl_append, List.foldl_cons, List.foldl_nil, Grid.find_set, ih]
    by_cases hh : h' = h <;> by_cases hw : w' = w <;> simp [hh, hw]
    by_cases hl : l' = n
    · simp [hl]
    · have : l' < n + 1 ↔ l' < n := by omega
      simp [hl, this]

theorem createRow_find (L h : Nat) (g0 : Grid) (h' w' l' : Nat) :
    ∀ n : Nat,
      ((List.range n).foldl (fun gw w =>
          (List.range L).foldl (fun gl l => gl.set h w l LayerTile.empty) (gw.clearTile h w))
        g0).find h' w' l' =
        if h' = h ∧ w' < n then (if l' < L then some LayerTile.empty else none)
        else g0.find h' w' l' := by
  intro n
  induction n with
  | zero => simp
  | succ n ih =>
    rw [List.range_succ, List.foldl_append, List.foldl_cons, List.foldl_nil, createLayers_find]
    rw [Grid.find_clearTile, ih]
    by_cases hh : h' = h
    · by_cases hw : w' = n
      · simp [hh, hw]
      · have : w' < n + 1 ↔ w' < n := by omega
        simp [hh, hw, this]
    · simp [hh]

/-- After the creation loops run on `g`, rows below `H` hold exactly the keys
`(h, w, l)` with `w < W` and `l < L`, each with a default entry; other rows are
as in `g`. -/
theorem createTiles_find (W L : Nat) (g : Grid) (h' w' l' : Nat) :
    ∀ H : Nat,
      (createTiles H W L g).find h' w' l' =
        if h' < H then (if w' < W ∧ l' < L then some LayerTile.empty else none)
        else g.find h' w' l' := by
  intro H
  unfold createTiles
  induction H with
  | zero => simp
  | succ n ih =>
    rw [List.range_succ, List.foldl_append, List.foldl_cons, List.foldl_nil, createRow_find]
    rw [Grid.find_clearRow, ih]
    by_cases hh : h' = n
    · subst hh
      by_cases hw : w' < W <;> by_cases hl : l' < L <;> simp [hw, hl]
    · have : h' < n + 1 ↔ h' < n := by omega
      simp [hh, this]

/-! ## The seeding loops -/

/-- The inner seeding loop after `n` iterations on row `h`: the carried pair is
`axisBounds` at `n`, and the tiles `w < n` of the row have received the region
built from the pair at `w`. -/
theorem seedCols_spec (stridew layerw starth endh : Int) (h last : Nat) (g0 : Grid) :
    ∀ n : Nat,
      ((List.range n).foldl (seedColStep stridew layerw starth endh h last)
          { start := 0, stop := stridew - 1, tiles := g0 }).start
        = (axisBounds stridew layerw n).1 ∧
      ((List.range n).foldl (seedColStep stridew layerw starth endh h last)
          { start := 0, stop := stridew - 1, tiles := g0 }).stop
        = (axisBounds stridew layerw n).2 ∧
      ∀ h' w' l',
        ((List.range n).foldl (seedColStep stridew layerw starth endh h last)
            { start := 0, stop := stridew - 1, tiles := g0 }).tiles.find h' w' l' =
          if h' = h ∧ w' < n ∧ l' = last then
            some { g0.get h' w' l' with
                   output := TileDimensions.ofBounds (axisBounds stridew layerw w').1 starth
                     (axisBounds stridew layerw w').2 endh }
          else g0.find h' w' l' := by
  intro n
  induction n with
  | zero => exact ⟨rfl, rfl, fun h' w' l' => by simp⟩
  | succ n ih =>
    obtain ⟨ih1, ih2, ih3⟩ := ih
    rw [List.range_succ, List.foldl_append, List.foldl_cons, List.foldl_nil]
    refine ⟨?_, ?_, ?_⟩
    · simp only [seedColStep, ih2, axisBounds]
    · simp only [seedColStep, ih2, axisBounds]
    · intro h' w' l'
      simp only [seedColStep]
      rw [Grid.find_setOutput, ih1, ih2]
      by_cases hk : h' = h ∧ w' = n ∧ l' = last
      · obtain ⟨rfl, rfl, rfl⟩ := hk
        have hget : ((List.range w').foldl (seedColStep stridew layerw starth endh h' l')
            { start := 0, stop := stridew - 1, tiles := g0 }).tiles.get h' w' l' = g0.get h' w' l' := by
          unfold Grid.get
          rw [ih3]
          simp
        simp [hget]
      · rw [if_neg hk, ih3]
        by_cases hk' : h' = h ∧ w' < n ∧ l' = last
        · have : h' = h ∧ w' < n + 1 ∧ l' = last := ⟨hk'.1, by omega, hk'.2.2⟩
          rw [if_pos hk', if_pos this]
        · have : ¬ (h' = h ∧ w' < n + 1 ∧ l' = last) := by
            rintro ⟨a, b, c⟩
            have : w' < n ∨ w' = n := by omega
            rcases this with d | d
            · exact hk' ⟨a, d, c⟩
            · exact hk ⟨a, d, c⟩
          rw [if_neg hk', if_neg this]

/-- The seeding loops: tile `(h, w)` with `h < H`, `w < W` receives at layer
`last` the region whose columns are `axisBounds` of the column axis at `w` and
whose rows are `axisBounds` of the row axis at `h`; nothing else changes. -/
theorem seedRows_spec (W : Nat) (stridew strideh layerw layerh : Int) (last : Nat) (g : Grid) :
    ∀ n : Nat,
      ((List.range n).foldl (seedRowStep W stridew strideh layerw layerh last)
          { start := 0, stop := strideh - 1, tiles := g }).start
        = (axisBounds strideh layerh n).1 ∧
      ((List.range n).foldl (seedRowStep W stridew strideh layerw layerh last)
          { start := 0, stop := strideh - 1, tiles := g }).stop
        = (axisBounds strideh layerh n).2 ∧
      ∀ h' w' l',
        ((List.range n).foldl (seedRowStep W stridew strideh layerw layerh last)
            { start := 0, stop := strideh - 1, tiles := g }).tiles.find h' w' l' =
          if h' < n ∧ w' < W ∧ l' = last then
            some { g.get h' w' l' with
                   output := TileDimensions.ofBounds (axisBounds stridew layerw w').1
                     (axisBounds strideh layerh h').1 (axisBounds stridew layerw w').2
                     (axisBounds strideh layerh h').2 }
          else g.find h' w' l' := by
  intro n
  induction n with
  | zero => exact ⟨rfl, rfl, fun h' w' l' => by simp⟩
  | succ n ih =>
    obtain ⟨ih1, ih2, ih3⟩ := ih
    rw [List.range_succ, List.foldl_append, List.foldl_cons, List.foldl_nil]
    refine ⟨?_, ?_, ?_⟩
    · simp only [seedRowStep, ih2, axisBounds]
    · simp only [seedRowStep, ih2, axisBounds]
    · intro h' w' l'
      simp only [seedRowStep]
      rw [(seedCols_spec stridew layerw _ _ n last _ W).2.2 h' w' l', ih1, ih2]
      by_cases hk : h' = n ∧ w' < W ∧ l' = last
      · obtain ⟨rfl, hw, rfl⟩ := hk
        have hget : ((List.range h').foldl (seedRowStep W stridew strideh layerw layerh l')
            { start := 0, stop := strideh - 1, tiles := g }).tiles.get h' w' l' = g.get h' w' l' := by
          unfold Grid.get
          rw [ih3]
          simp
        simp [hget, hw]
      · rw [if_neg hk, ih3]
        by_cases hk' : h' < n ∧ w' < W ∧ l' = last
        · have : h' < n + 1 ∧ w' < W ∧ l' = last := ⟨by omega, hk'.2⟩
          rw [if_pos hk', if_pos this]
        · have : ¬ (h' < n + 1 ∧ w' < W ∧ l' = last) := by
            rintro ⟨a, b, c⟩
            have : h' < n ∨ h' = n := by omega
            rcases this with d | d
            · exact hk' ⟨d, b, c⟩
            · exact hk ⟨d, b, c⟩
          rw [if_neg hk', if_neg this]

/-- The grid after the seeding loops, key by key. -/
theorem seedTiles_find (W H : Nat) (stridew strideh layerw layerh : Int) (last : Nat) (g : Grid)
    (h' w' l' : Nat) :
    (seedTiles W H stridew strideh layerw layerh last g).find h' w' l' =
      if h' < H ∧ w' < W ∧ l' = last then
        some { g.get h' w' l' with
               output := TileDimensions.ofBounds (axisBounds stridew layerw w').1
                 (axisBounds strideh layerh h').1 (axisBounds stridew layerw w').2
                 (axisBounds strideh layerh h').2 }
      else g.find h' w' l' :=
  (seedRows_spec W stridew strideh layerw layerh last g H).2.2 h' w' l'

/-! ## The binary32 stride is the exact ceiling below `2^24` -/

theorem shiftDown_eq_zero (fuel a b : Nat) (h : a < 16777216 * b) : shiftDown fuel a b = 0 := by
  cases fuel with
  | zero => rfl
  | succ n =>
    unfold shiftDown
    rw [if_neg (by omega)]

theorem shiftUp_reaches (b : Nat) :
    ∀ (fuel a : Nat), 8388608 * b ≤ a * 2 ^ fuel → 8388608 * b ≤ a * 2 ^ shiftUp fuel a b := by
  intro fuel
  induction fuel with
  | zero =>
    intro a h
    exact h
  | succ n ih =>
    intro a h
    unfold shiftUp
    by_cases hlt : a < 8388608 * b
    · rw [if_pos hlt]
      have h' : 8388608 * b ≤ 2 * a * 2 ^ n := by
        have : a * 2 ^ (n + 1) = 2 * a * 2 ^ n := by ring
        omega
      have := ih (2 * a) h'
      have e : a * 2 ^ (shiftUp n (2 * a) b + 1) = 2 * a * 2 ^ shiftUp n (2 * a) b := by ring
      omega
    · rw [if_neg hlt]
      simp only [pow_zero, mul_one]
      omega

theorem roundHalfEven_one (n : Nat) : roundHalfEven n 1 = n := by
  unfold roundHalfEven
  simp [Nat.mod_one]

/-- Rounding `a * P / b` to the nearest integer and taking the ceiling of the
result over `P` gives the ceiling of `a / b`, as soon as `P` is more than half
of `b` whenever `b` does not divide `a`. -/
theorem ceil_roundHalfEven (a b P : Nat) (hb : 1 ≤ b) (hP : 1 ≤ P)
    (hk : a % b ≠ 0 → b < 2 * P) :
    (roundHalfEven (a * P) b + P - 1) / P = (a + b - 1) / b := by
  have hab := Nat.div_add_mod a b
  have hrb : a % b < b := Nat.mod_lt a (by omega)
  -- quotient and remainder of `a * P` by `b`
  have hsplit : a * P = (a % b) * P + (a / b * P) * b := by
    have : a * P = (b * (a / b) + a % b) * P := by rw [hab]
    rw [this]; ring
  have hq : a * P / b = (a % b) * P / b + a / b * P := by
    rw [hsplit, Nat.add_mul_div_right _ _ (by omega : 0 < b)]
  have hm : a * P % b = (a % b) * P % b := by
    rw [hsplit, Nat.add_mul_mod_self_right]
  have hts := Nat.div_add_mod ((a % b) * P) b
  have hs : (a % b) * P % b < b := Nat.mod_lt _ (by omega)
  by_cases hr : a % b = 0
  · -- `b` divides `a`: the rounding is exact
    have h1 : roundHalfEven (a * P) b = a / b * P := by
      unfold roundHalfEven
      rw [hm, hq, hr]
      simp only [zero_mul, Nat.zero_mod, Nat.zero_div, zero_add, mul_zero]
      rw [if_neg (by omega)]
    have h2 : (a + b - 1) / b = a / b := by
      apply Nat.div_eq_of_lt_le
      · have : a / b * b = b * (a / b) := by ring
        omega
      · have : (a / b + 1) * b = b * (a / b) + b := by ring
        omega
    rw [h1, h2]
    apply Nat.div_eq_of_lt_le
    · omega
    · have : (a / b + 1) * P = a / b * P + P := by ring
      omega
  · -- `b` does not divide `a`: the rounded value lies in `(q * P, (q + 1) * P]`
    have hbP := hk hr
    have ht : (a % b) * P / b < P := by
      apply Nat.div_lt_of_lt_mul
      have : a % b * P < b * P := Nat.mul_lt_mul_of_pos_right hrb (by omega)
      exact this
    have hlow : a / b * P + 1 ≤ roundHalfEven (a * P) b := by
      unfold roundHalfEven
      rw [hm, hq]
      by_cases ht0 : (a % b) * P / b = 0
      · have hsv : (a % b) * P % b = (a % b) * P := by
          rw [ht0] at hts; omega
        have hge : P ≤ (a % b) * P := Nat.le_mul_of_pos_left P (by omega)
        rw [if_pos (Or.inl (by omega))]
        omega
      · generalize (a % b) * P / b = t at ht0 ⊢
        generalize (a % b) * P % b = s
        generalize a / b * P = Q
        split_ifs <;> omega
    have hhigh : roundHalfEven (a * P) b ≤ a / b * P + P := by
      unfold roundHalfEven
      rw [hm, hq]
      generalize (a % b) * P / b = t at ht ⊢
      generalize (a % b) * P % b = s
      generalize a / b * P = Q
      split_ifs <;> omega
    have h2 : (a + b - 1) / b = a / b + 1 := by
      apply Nat.div_eq_of_lt_le
      · have : (a / b + 1) * b = b * (a / b) + b := by ring
        omega
      · have : (a / b + 1 + 1) * b = b * (a / b) + b + b := by ring
        omega
    rw [h2]
    apply Nat.div_eq_of_lt_le
    · have : (a / b + 1) * P = a / b * P + P := by ring
      omega
    · have : (a / b + 1 + 1) * P = a / b * P + P + P := by ring
      omega

theorem natToF32_of_lt (n : Nat) (h : n < 16777216) : natToF32 n = n := by
  unfold natToF32 f32Quot
  rw [shiftDown_eq_zero 64 n 1 (by omega)]
  simp only [pow_zero, mul_one, roundHalfEven_one]
  exact Nat.mul_div_cancel n (Nat.two_pow_pos _)

/-- For `1 ≤ a < 2^24` and `1 ≤ b < 2^24` the stride computed in binary32 is
the exact integer ceiling of `a / b`. -/
theorem strideOf_exact (a : Int) (b : Nat) (ha : 1 ≤ a) (ha' : a < 16777216) (hb : 1 ≤ b)
    (hb' : b < 16777216) : strideOf a b = some (ceilDiv a b) := by
  obtain ⟨n, rfl⟩ : ∃ n : Nat, a = (n : Int) := ⟨a.toNat, by omega⟩
  have hn1 : 1 ≤ n := by omega
  have hn2 : n < 16777216 := by omega
  have hP : 1 ≤ 2 ^ shiftUp 64 n b := Nat.one_le_two_pow
  have hreach : 8388608 * b ≤ n * 2 ^ shiftUp 64 n b := by
    apply shiftUp_reaches
    have : 8388608 * 16777216 ≤ 2 ^ 64 := by decide
    have h1 : 2 ^ 64 ≤ n * 2 ^ 64 := Nat.le_mul_of_pos_left _ (by omega)
    omega
  have hk : n % b ≠ 0 → b < 2 * 2 ^ shiftUp 64 n b := by
    intro _
    by_contra hcon
    have h1 : n * 2 ^ shiftUp 64 n b < 16777216 * 2 ^ shiftUp 64 n b :=
      Nat.mul_lt_mul_of_pos_right hn2 (by omega)
    omega
  have hceil := ceil_roundHalfEven n b (2 ^ shiftUp 64 n b) hb hP hk
  have hle : (n + b - 1) / b ≤ n + b - 1 := Nat.div_le_self _ _
  have hcd : ceilDiv (n : Int) b = (((n + b - 1) / b : Nat) : Int) := by
    unfold ceilDiv
    have : (n : Int) + (b : Int) - 1 = ((n + b - 1 : Nat) : Int) := by omega
    rw [this, Int.natCast_div]
  unfold strideOf
  rw [if_neg (by omega)]
  simp only [Int.natAbs_ofNat, natToF32_of_lt n hn2, natToF32_of_lt b hb']
  unfold f32Quot
  rw [shiftDown_eq_zero 64 n b (by omega)]
  simp only [pow_zero, mul_one]
  rw [if_pos (by omega : (0 : Int) ≤ (n : Int)), hceil, hcd]
  have h0 : (0 : Int) ≤ (((n + b - 1) / b : Nat) : Int) := Int.natCast_nonneg _
  have h1 : (((n + b - 1) / b : Nat) : Int) ≤ ((n + b - 1 : Nat) : Int) := by exact_mod_cast hle
  have h2 : ((n + b - 1 : Nat) : Int) < 33554432 := by omega
  generalize (((n + b - 1) / b : Nat) : Int) = x at h0 h1 ⊢
  rw [if_pos ⟨by omega, by omega⟩]

/-- From `2^24` on the binary32 stride can miss the exact ceiling in either
direction, and the computation is undefined for a zero partition count and for
a quotient that does not fit `int32_t`. -/
theorem strideOf_beyond_exact :
    strideOf 16777219 1 = some 16777220 ∧ ceilDiv 16777219 1 = 16777219 ∧
    strideOf 16785409 4098 = some 4096 ∧ ceilDiv 16785409 4098 = 4097 ∧
    strideOf 5 0 = none ∧ strideOf 2147483647 1 = none := by
  decide

/-! ## What `setupTiles` builds -/

theorem lastLayer_eq (L : Nat) (h1 : 1 ≤ L) (h32 : L ≤ 4294967296) : lastLayer L = L - 1 := by
  unfold lastLayer
  omega

/-- The strides are defined as soon as the last fused layer exists and both
stride computations yield a value. -/
theorem stridesDefined_of (m : Model) (W H L : Nat) (top : Layer) (sw sh : Int) (h1 : 1 ≤ L)
    (h32 : L ≤ 4294967296) (htop : m.getLayer (L - 1) = some top)
    (hsw : strideOf top.out_w W = some sw) (hsh : strideOf top.out_h H = some sh) :
    stridesDefined m W H L = true := by
  unfold stridesDefined
  rw [lastLayer_eq L h1 h32, htop]
  simp only [hsw, hsh]
  rfl

/-- Whenever `setupTiles` builds a grid, lines 63-66 were defined: the
condition `stridesDefined` holds of every grid that is built. -/
theorem stridesDefined_of_setupTiles (m : Model) (W H L : Nat) (g : Grid)
    (hg : setupTiles m W H L = some g) : stridesDefined m W H L = true := by
  unfold setupTiles at hg
  unfold stridesDefined
  cases htop : m.getLayer (lastLayer L) with
  | none =>
    rw [htop] at hg
    cases hg
  | some top =>
    rw [htop] at hg
    dsimp only at hg ⊢
    cases hsw : strideOf top.out_w W with
    | none =>
      rw [hsw] at hg
      cases hg
    | some sw =>
      cases hsh : strideOf top.out_h H with
      | none =>
        rw [hsw, hsh] at hg
        cases hg
      | some sh => rfl

/-- With `1 ≤ L ≤` the number of layers of the model and both strides defined,
`setupTiles` succeeds.  The grid holds exactly the keys `(h, w, l)` with
`h < H`, `w < W`, `l < L`; at layer `L-1` the output of tile `(h, w)` is the
region seeded with the computed strides `sw`, `sh`; every input is
`createInputTile` of the output at the same layer; every output below `L-1` is
the input one layer up. -/
theorem setupTiles_spec (m : Model) (W H L : Nat) (h1 : 1 ≤ L) (hlen : L ≤ m.layers.length)
    (h32 : L ≤ 4294967296) (hs : stridesDefined m W H L = true) :
    ∃ g top sw sh, m.getLayer (L - 1) = some top ∧ strideOf top.out_w W = some sw ∧
      strideOf top.out_h H = some sh ∧ setupTiles m W H L = some g ∧
      (∀ h w l, (g.find h w l).isSome = true ↔ h < H ∧ w < W ∧ l < L) ∧
      (∀ h w, h < H → w < W →
        (g.get h w (L - 1)).output =
          TileDimensions.ofBounds (axisBounds sw top.out_w w).1
            (axisBounds sh top.out_h h).1
            (axisBounds sw top.out_w w).2
            (axisBounds sh top.out_h h).2 ∧
        (∀ l layer, l < L → m.getLayer l = some layer →
          (g.get h w l).input = createInputTile (g.get h w l).output layer) ∧
        (∀ l, l + 1 < L → (g.get h w l).output = (g.get h w (l + 1)).input)) := by
  have hlast := lastLayer_eq L h1 h32
  have hlt : L - 1 < m.layers.length := by omega
  obtain ⟨top, htop⟩ : ∃ top, m.getLayer (L - 1) = some top :=
    ⟨m.layers.get ⟨L - 1, hlt⟩, by simp [Model.getLayer, List.getElem?_eq_getElem hlt]⟩
  unfold stridesDefined at hs
  rw [hlast, htop] at hs
  simp only [Bool.and_eq_true] at hs
  obtain ⟨sw, hsw⟩ := Option.isSome_iff_exists.mp hs.1
  obtain ⟨sh, hsh⟩ := Option.isSome_iff_exists.mp hs.2
  obtain ⟨g, hg, hframe, hchain⟩ := propagateTiles_spec m W H L hlen
    (seedTiles W H sw sh top.out_w top.out_h (L - 1)
      (createTiles H W L Grid.empty))
  have hempty : ∀ h w l, Grid.empty.find h w l = none := fun _ _ _ => rfl
  refine ⟨g, top, sw, sh, htop, hsw, hsh, ?_, ?_, ?_⟩
  · unfold setupTiles
    rw [hlast, htop]
    simp only [hsw, hsh]
    exact hg
  · intro h w l
    by_cases hin : h < H ∧ w < W
    · obtain ⟨_, _, _, habove, hpres⟩ := hchain h w hin.1 hin.2
      by_cases hl : l < L
      · simp [hpres l hl, hin, hl]
      · rw [habove l (by omega), seedTiles_find, createTiles_find]
        have hne : ¬ (l = L - 1) := by omega
        simp [hne, hl, hin, hempty]
    · rw [hframe h w l hin, seedTiles_find, createTiles_find]
      have h3 : ¬ (h < H ∧ w < W ∧ l = L - 1) := fun a => hin ⟨a.1, a.2.1⟩
      have h4 : ¬ (h < H ∧ w < W ∧ l < L) := fun a => hin ⟨a.1, a.2.1⟩
      rw [if_neg h3]
      by_cases hh : h < H
      · have hw : ¬ (w < W) := fun a => hin ⟨hh, a⟩
        simp [hh, hw]
      · simp [hh, hempty]
  · intro h w hh hw
    obtain ⟨hout, hinp, hch, _, _⟩ := hchain h w hh hw
    refine ⟨?_, hinp, hch⟩
    rw [Grid.get_eq_colGet, hout]
    unfold colGet
    rw [seedTiles_find]
    simp [hh, hw]

/-! ## One axis of the seed: the intervals partition `[0, extent - 1]` -/

theorem ceilDiv_bounds (a : Int) (b : Nat) (ha : 1 ≤ a) (hb : 1 ≤ b) :
    1 ≤ ceilDiv a b ∧ ceilDiv a b ≤ a ∧ a ≤ (b : Int) * ceilDiv a b := by
  unfold ceilDiv
  have hb' : (0 : Int) < (b : Int) := by exact_mod_cast hb
  have hmod := Int.emod_add_ediv (a + (b : Int) - 1) (b : Int)
  have hlt := Int.emod_lt_of_pos (a + (b : Int) - 1) hb'
  have hnn := Int.emod_nonneg (a + (b : Int) - 1) (ne_of_gt hb')
  refine ⟨?_, ?_, ?_⟩
  · by_contra hcon
    have hq : (a + (b : Int) - 1) / (b : Int) ≤ 0 := by omega
    have : (b : Int) * ((a + (b : Int) - 1) / (b : Int)) ≤ 0 :=
      Int.mul_nonpos_of_nonneg_of_nonpos (le_of_lt hb') hq
    omega
  · by_contra hcon
    have hq : a + 1 ≤ (a + (b : Int) - 1) / (b : Int) := by omega
    have h1 : (b : Int) * (a + 1) ≤ (b : Int) * ((a + (b : Int) - 1) / (b : Int)) :=
      Int.mul_le_mul_of_nonneg_left hq (le_of_lt hb')
    have h2 : a + (b : Int) ≤ (b : Int) * (a + 1) := by
      have := mul_nonneg (sub_nonneg.mpr (show (1 : Int) ≤ (b : Int) by omega))
        (show (0 : Int) ≤ a by omega)
      nlinarith
    omega
  · omega

theorem axisBounds_start_succ (s e : Int) (i : Nat) :
    (axisBounds s e (i + 1)).1 = (axisBounds s e i).2 + 1 := rfl

theorem axisBounds_stop_succ (s e : Int) (i : Nat) :
    (axisBounds s e (i + 1)).2 = min ((axisBounds s e i).2 + s) (e - 1) := rfl

/-- Closed form of the running `end`: `min ((i+1) * stride - 1) (extent - 1)`. -/
theorem axisBounds_stop (s e : Int) (hs : 0 ≤ s) (hse : s ≤ e) :
    ∀ i : Nat, (axisBounds s e i).2 = min (((i : Int) + 1) * s - 1) (e - 1) := by
  intro i
  induction i with
  | zero =>
    have h0 : (axisBounds s e 0).2 = s - 1 := rfl
    rw [h0]
    simp only [Nat.cast_zero, zero_add, one_mul]
    omega
  | succ i ih =>
    rw [axisBounds_stop_succ, ih]
    have e1 : (((i + 1 : Nat) : Int) + 1) * s = ((i : Int) + 1) * s + s := by push_cast; ring
    rw [e1]
    generalize ((i : Int) + 1) * s = t
    omega

theorem axisBounds_stop_mono (s e : Int) (hs : 0 ≤ s) (hse : s ≤ e) :
    ∀ i j : Nat, i ≤ j → (axisBounds s e i).2 ≤ (axisBounds s e j).2 := by
  intro i j hij
  induction j with
  | zero =>
    have : i = 0 := by omega
    subst this
    exact le_refl _
  | succ j ih =>
    rcases Nat.lt_succ_iff_lt_or_eq.mp (Nat.lt_succ_of_le hij) with hlt | heq
    · have h1 := ih (by omega)
      have h2 := axisBounds_stop s e hs hse j
      rw [axisBounds_stop_succ]
      omega
    · subst heq
      exact le_refl _

theorem axisBounds_start_nonneg (s e : Int) (hs : 1 ≤ s) (hse : s ≤ e) :
    ∀ i : Nat, 0 ≤ (axisBounds s e i).1 := by
  intro i
  cases i with
  | zero => exact le_refl _
  | succ i =>
    rw [axisBounds_start_succ]
    have h1 := axisBounds_stop_mono s e (by omega) hse 0 i (Nat.zero_le i)
    have h0 : (axisBounds s e 0).2 = s - 1 := rfl
    omega

/-- Distinct intervals of one axis share no coordinate. -/
theorem axisBounds_disjoint (s e : Int) (hs : 0 ≤ s) (hse : s ≤ e) (i j : Nat) (hij : i < j)
    (x : Int) (hi : x ≤ (axisBounds s e i).2) (hj : (axisBounds s e j).1 ≤ x) : False := by
  obtain ⟨k, rfl⟩ : ∃ k, j = k + 1 := ⟨j - 1, by omega⟩
  rw [axisBounds_start_succ] at hj
  have := axisBounds_stop_mono s e hs hse i k (by omega)
  omega

/-- Every coordinate up to the running `end` at `i` lies in one of the
intervals `0 .. i`. -/
theorem axisBounds_cover (s e : Int) :
    ∀ (i : Nat) (x : Int), 0 ≤ x → x ≤ (axisBounds s e i).2 →
      ∃ k, k ≤ i ∧ (axisBounds s e k).1 ≤ x ∧ x ≤ (axisBounds s e k).2 := by
  intro i
  induction i with
  | zero => intro x h0 hx; exact ⟨0, le_refl _, h0, hx⟩
  | succ i ih =>
    intro x h0 hx
    by_cases hle : x ≤ (axisBounds s e i).2
    · obtain ⟨k, hk, hk1, hk2⟩ := ih x h0 hle
      exact ⟨k, by omega, hk1, hk2⟩
    · refine ⟨i + 1, le_refl _, ?_, hx⟩
      rw [axisBounds_start_succ]
      omega

/-- With `n ≥ 1` intervals and the stride `ceil (extent / n)`, the last running
`end` is `extent - 1`. -/
theorem axisBounds_last (e : Int) (n : Nat) (he : 1 ≤ e) (hn : 1 ≤ n) :
    (axisBounds (ceilDiv e n) e (n - 1)).2 = e - 1 := by
  obtain ⟨h1, h2, h3⟩ := ceilDiv_bounds e n he hn
  rw [axisBounds_stop (ceilDiv e n) e (by omega) h2]
  have hc : (((n - 1 : Nat) : Int) + 1) = (n : Int) := by
    have : ((n - 1 : Nat) : Int) = (n : Int) - 1 := by omega
    rw [this]; ring
  rw [hc]
  generalize (n : Int) * ceilDiv e n = t at h3 ⊢
  omega

theorem contains_ofBounds (sw sh ew eh row col : Int) :
    (TileDimensions.ofBounds sw sh ew eh).contains row col ↔
      (sh ≤ row ∧ row ≤ eh ∧ sw ≤ col ∧ col ≤ ew) := Iff.rfl

/-! ## Coverage and chaining -/

/-- C1: for `W ≥ 1`, `H ≥ 1` and a last fused layer whose output plane is
`layerW x layerH` with both at least 1, taking the computed strides to be the
exact integer ceilings of `layerW / W` and `layerH / H`, `setupTiles` succeeds
and the output regions it stores at layer `L-1` for the `H * W` tiles are
pairwise disjoint as sets of cells, and their union is exactly
`[0, layerH-1] x [0, layerW-1]` (rows x columns). -/
theorem seed_outputs_partition (m : Model) (W H L : Nat) (top : Layer)
    (hW : 1 ≤ W) (hH : 1 ≤ H) (h1 : 1 ≤ L) (hlen : L ≤ m.layers.length) (h32 : L < 4294967296)
    (htop : m.getLayer (L - 1) = some top) (hw : 1 ≤ top.out_w) (hh : 1 ≤ top.out_h)
    (hsw : strideOf top.out_w W = some (ceilDiv top.out_w W))
    (hsh : strideOf top.out_h H = some (ceilDiv top.out_h H)) :
    ∃ g, setupTiles m W H L = some g ∧
      (∀ h w h' w', h < H → w < W → h' < H → w' < W → (h, w) ≠ (h', w') →
        ∀ row col, ¬ ((g.get h w (L - 1)).output.contains row col ∧
                      (g.get h' w' (L - 1)).output.contains row col)) ∧
      (∀ row col, (∃ h w, h < H ∧ w < W ∧ (g.get h w (L - 1)).output.contains row col) ↔
        (0 ≤ row ∧ row ≤ top.out_h - 1 ∧ 0 ≤ col ∧ col ≤ top.out_w - 1)) := by
  obtain ⟨g, top', sw, sh, htop', hsw', hsh', hg, _, hspec⟩ :=
    setupTiles_spec m W H L h1 hlen (by omega)
      (stridesDefined_of m W H L top _ _ h1 (by omega) htop hsw hsh)
  rw [htop] at htop'
  cases htop'
  rw [hsw] at hsw'
  cases hsw'
  rw [hsh] at hsh'
  cases hsh'
  obtain ⟨hw1, hw2, hw3⟩ := ceilDiv_bounds top.out_w W hw hW
  obtain ⟨hh1, hh2, hh3⟩ := ceilDiv_bounds top.out_h H hh hH
  refine ⟨g, hg, ?_, ?_⟩
  · intro h w h' w' hh' hw' hh'' hw'' hne row col hboth
    rw [(hspec h w hh' hw').1, (hspec h' w' hh'' hw'').1, contains_ofBounds, contains_ofBounds] at hboth
    obtain ⟨⟨a1, a2, a3, a4⟩, b1, b2, b3, b4⟩ := hboth
    by_cases hrow : h = h'
    · have hcol : w ≠ w' := fun e => hne (by rw [hrow, e])
      rcases Nat.lt_or_gt_of_ne hcol with hlt | hgt
      · exact axisBounds_disjoint _ _ (by omega) hw2 w w' hlt col a4 b3
      · exact axisBounds_disjoint _ _ (by omega) hw2 w' w hgt col b4 a3
    · rcases Nat.lt_or_gt_of_ne hrow with hlt | hgt
      · exact axisBounds_disjoint _ _ (by omega) hh2 h h' hlt row a2 b1
      · exact axisBounds_disjoint _ _ (by omega) hh2 h' h hgt row b2 a1
  · intro row col
    constructor
    · rintro ⟨h, w, hh', hw', hc⟩
      rw [(hspec h w hh' hw').1, contains_ofBounds] at hc
      obtain ⟨a1, a2, a3, a4⟩ := hc
      have r0 := axisBounds_start_nonneg _ _ hh1 hh2 h
      have c0 := axisBounds_start_nonneg _ _ hw1 hw2 w
      have r1 := axisBounds_stop _ _ (by omega : (0 : Int) ≤ ceilDiv top.out_h H) hh2 h
      have c1 := axisBounds_stop _ _ (by omega : (0 : Int) ≤ ceilDiv top.out_w W) hw2 w
      refine ⟨by omega, ?_, by omega, ?_⟩
      · rw [r1] at a2; omega
      · rw [c1] at a4; omega
    · rintro ⟨r0, r1, c0, c1⟩
      obtain ⟨h, hh', hr1, hr2⟩ := axisBounds_cover (ceilDiv top.out_h H) top.out_h (H - 1) row r0
        (by rw [axisBounds_last top.out_h H hh hH]; exact r1)
      obtain ⟨w, hw', hc1, hc2⟩ := axisBounds_cover (ceilDiv top.out_w W) top.out_w (W - 1) col c0
        (by rw [axisBounds_last top.out_w W hw hW]; exact c1)
      refine ⟨h, w, by omega, by omega, ?_⟩
      rw [(hspec h w (by omega) (by omega)).1, contains_ofBounds]
      exact ⟨hr1, hr2, hc1, hc2⟩

/-- Witness for C1: one convolutional layer with a 5x7 output plane, split
into 3 columns and 2 rows. -/
theorem seed_outputs_partition_witness :
    ∃ g, setupTiles { layers := [Layer.conv 1 3 5 7 5 7] } 3 2 1 = some g ∧
      (∀ h w h' w', h < 2 → w < 3 → h' < 2 → w' < 3 → (h, w) ≠ (h', w') →
        ∀ row col, ¬ ((g.get h w (1 - 1)).output.contains row col ∧
                      (g.get h' w' (1 - 1)).output.contains row col)) ∧
      (∀ row col, (∃ h w, h < 2 ∧ w < 3 ∧ (g.get h w (1 - 1)).output.contains row col) ↔
        (0 ≤ row ∧ row ≤ (7 : Int) - 1 ∧ 0 ≤ col ∧ col ≤ (5 : Int) - 1)) :=
  seed_outputs_partition { layers := [Layer.conv 1 3 5 7 5 7] } 3 2 1 (Layer.conv 1 3 5 7 5 7)
    (by decide) (by decide) (by decide) (by decide) (by decide) rfl (by decide) (by decide)
    (by decide) (by decide)

/-- C2: with `L` at most the number of layers of the model and both stride
computations defined (the quotient converts to a 32-bit integer), `setupTiles`
succeeds and, in the grid it builds, for every tile `(h, w)` with `h < H`,
`w < W` and every layer `l` with `l + 1 < L`, the output stored at layer `l`
equals the input stored at layer `l + 1` as a whole record, hence in all six
fields. -/
theorem setupTiles_chaining (m : Model) (W H L : Nat) (hlen : L ≤ m.layers.length)
    (h32 : L < 4294967296) (hs : stridesDefined m W H L = true)
    (h w l : Nat) (hh : h < H) (hw : w < W) (hl : l + 1 < L) :
    ∃ g, setupTiles m W H L = some g ∧
      (g.get h w l).output = (g.get h w (l + 1)).input ∧
      (g.get h w l).output.startw = (g.get h w (l + 1)).input.startw ∧
      (g.get h w l).output.endw = (g.get h w (l + 1)).input.endw ∧
      (g.get h w l).output.starth = (g.get h w (l + 1)).input.starth ∧
      (g.get h w l).output.endh = (g.get h w (l + 1)).input.endh ∧
      (g.get h w l).output.width = (g.get h w (l + 1)).input.width ∧
      (g.get h w l).output.height = (g.get h w (l + 1)).input.height := by
  obtain ⟨g, _, _, _, _, _, _, hg, _, hspec⟩ :=
    setupTiles_spec m W H L (by omega) hlen (by omega) hs
  have e := (hspec h w hh hw).2.2 l hl
  exact ⟨g, hg, e, by rw [e], by rw [e], by rw [e], by rw [e], by rw [e], by rw [e]⟩

/-- Witness for C2: a convolution followed by a pooling layer, both fused,
2 x 2 tiles; tile `(1, 1)` between layers 0 and 1. -/
theorem setupTiles_chaining_witness :
    ∃ g, setupTiles { layers := [Layer.conv 1 3 8 8 8 8, Layer.pool 2 2 8 8 4 4] } 2 2 2 = some g ∧
      (g.get 1 1 0).output = (g.get 1 1 (0 + 1)).input ∧
      (g.get 1 1 0).output.startw = (g.get 1 1 (0 + 1)).input.startw ∧
      (g.get 1 1 0).output.endw = (g.get 1 1 (0 + 1)).input.endw ∧
      (g.get 1 1 0).output.starth = (g.get 1 1 (0 + 1)).input.starth ∧
      (g.get 1 1 0).output.endh = (g.get 1 1 (0 + 1)).input.endh ∧
      (g.get 1 1 0).output.width = (g.get 1 1 (0 + 1)).input.width ∧
      (g.get 1 1 0).output.height = (g.get 1 1 (0 + 1)).input.height :=
  setupTiles_chaining { layers := [Layer.conv 1 3 8 8 8 8, Layer.pool 2 2 8 8 4 4] } 2 2 2
    (by decide) (by decide) (by decide) 1 1 0 (by decide) (by decide) (by decide)

/-! ## The end-to-end example and unsupported layers -/

/-- C9: for a model whose layer 0 is Convolutional with stride 1, kernel 3,
input 6x6 and output 6x6, `setupTiles` with partition 2 x 2 and one fused layer
stores four layer-0 output regions of width 3 and height 3, and the input of
tile `(0, 0)` at layer 0 is rows `[0,3]` x columns `[0,3]`, width 4, height 4. -/
theorem end_to_end_example (rest : List Layer) :
    ∃ g, setupTiles { layers := Layer.conv 1 3 6 6 6 6 :: rest } 2 2 1 = some g ∧
      (g.get 0 0 0).output = TileDimensions.ofBounds 0 0 2 2 ∧
      (g.get 0 1 0).output = TileDimensions.ofBounds 3 0 5 2 ∧
      (g.get 1 0 0).output = TileDimensions.ofBounds 0 3 2 5 ∧
      (g.get 1 1 0).output = TileDimensions.ofBounds 3 3 5 5 ∧
      (∀ h w, h < 2 → w < 2 → (g.get h w 0).output.width = 3 ∧ (g.get h w 0).output.height = 3) ∧
      (g.get 0 0 0).input =
        { startw := 0, endw := 3, starth := 0, endh := 3, width := 4, height := 4 } := by
  have hlayer : Model.getLayer { layers := Layer.conv 1 3 6 6 6 6 :: rest } 0 =
      some (Layer.conv 1 3 6 6 6 6) := by simp [Model.getLayer]
  have hstride : strideOf (Layer.conv 1 3 6 6 6 6).out_w 2 = some 3 := by decide
  have hstride' : strideOf (Layer.conv 1 3 6 6 6 6).out_h 2 = some 3 := by decide
  obtain ⟨g, top, sw, sh, htop, hsw, hsh, hg, _, hspec⟩ :=
    setupTiles_spec { layers := Layer.conv 1 3 6 6 6 6 :: rest } 2 2 1 (le_refl 1)
      (by simp) (by decide)
      (stridesDefined_of _ 2 2 1 (Layer.conv 1 3 6 6 6 6) 3 3 (le_refl 1) (by decide) hlayer
        hstride hstride')
  have htop' : top = Layer.conv 1 3 6 6 6 6 := by
    have h0 : Model.getLayer { layers := Layer.conv 1 3 6 6 6 6 :: rest } (1 - 1) = some top := htop
    rw [show (1 - 1 : Nat) = 0 from rfl, hlayer] at h0
    exact (Option.some.inj h0).symm
  subst htop'
  rw [hstride] at hsw
  cases hsw
  rw [hstride'] at hsh
  cases hsh
  have e00 : (g.get 0 0 0).output = TileDimensions.ofBounds 0 0 2 2 :=
    (hspec 0 0 (by decide) (by decide)).1.trans (by decide)
  have e01 : (g.get 0 1 0).output = TileDimensions.ofBounds 3 0 5 2 :=
    (hspec 0 1 (by decide) (by decide)).1.trans (by decide)
  have e10 : (g.get 1 0 0).output = TileDimensions.ofBounds 0 3 2 5 :=
    (hspec 1 0 (by decide) (by decide)).1.trans (by decide)
  have e11 : (g.get 1 1 0).output = TileDimensions.ofBounds 3 3 5 5 :=
    (hspec 1 1 (by decide) (by decide)).1.trans (by decide)
  refine ⟨g, hg, e00, e01, e10, e11, ?_, ?_⟩
  · intro h w hh hw
    have hcases : (h = 0 ∨ h = 1) ∧ (w = 0 ∨ w = 1) := by omega
    rcases hcases with ⟨rfl | rfl, rfl | rfl⟩
    · rw [e00]; exact ⟨rfl, rfl⟩
    · rw [e01]; exact ⟨rfl, rfl⟩
    · rw [e10]; exact ⟨rfl, rfl⟩
    · rw [e11]; exact ⟨rfl, rfl⟩
  · rw [(hspec 0 0 (by decide) (by decide)).2.1 0 _ (by decide) hlayer, e00]
    decide

/-- C10, as the code behaves at a concrete input: on a layer that is neither
Convolutional nor MaxPool, `createInputTile` returns the region `[0,0] x [0,0]`
of width 1 and height 1 instead of failing, and the constructor succeeds on a
model whose only fused layer is of that kind. -/
theorem unsupported_layer_counterexample :
    createInputTile (TileDimensions.ofBounds 2 3 5 7) (Layer.other 1 3 10 10 10 10) =
        { startw := 0, endw := 0, starth := 0, endh := 0, width := 1, height := 1 } ∧
    (FusedTilePartitioner.create { layers := [Layer.other 1 3 10 10 10 10] } 2 2 1).isSome = true := by
  decide

/-- C10, amended: for a layer that is neither Convolutional nor MaxPool,
`createInputTile` does not fail; whatever the output region, it returns the
region with start 0 and end 0 on both axes, width 1 and height 1.  Construction
over a fused prefix that contains such a layer at index `i` succeeds whenever
both stride computations are defined, and every tile stores that region as its
input at layer `i`. -/
theorem unsupported_layer_default_region (out : TileDimensions) (l : Layer)
    (hc : l.type ≠ LayerType.CONVOLUTIONAL) (hp : l.type ≠ LayerType.MAXPOOL)
    (m : Model) (W H L i : Nat) (h1 : 1 ≤ L) (hlen : L ≤ m.layers.length) (h32 : L < 4294967296)
    (hs : stridesDefined m W H L = true)
    (hi : i < L) (hl : m.getLayer i = some l) :
    createInputTile out l =
        { startw := 0, endw := 0, starth := 0, endh := 0, width := 1, height := 1 } ∧
    ∃ p, FusedTilePartitioner.create m W H L = some p ∧
      ∀ h w, h < H → w < W →
        (p.tiles.get h w i).input =
          { startw := 0, endw := 0, starth := 0, endh := 0, width := 1, height := 1 } := by
  have hcit : ∀ o : TileDimensions, createInputTile o l =
      { startw := 0, endw := 0, starth := 0, endh := 0, width := 1, height := 1 } := by
    intro o
    simp [createInputTile, hc, hp, TileDimensions.zero]
  refine ⟨hcit out, ?_⟩
  obtain ⟨g, _, _, _, _, _, _, hg, _, hspec⟩ := setupTiles_spec m W H L h1 hlen (by omega) hs
  refine ⟨{ model := m, partitionWidth := W, partitionHeight := H, nFusedLayers := L, tiles := g },
    by simp only [FusedTilePartitioner.create, hg, Option.map_some'], ?_⟩
  intro h w hh hw
  show (g.get h w i).input = _
  rw [(hspec h w hh hw).2.1 i l hi hl]
  exact hcit _

/-- Witness for C10 (amended): layer 1 of a two-layer fused prefix is of an
unsupported kind. -/
theorem unsupported_layer_default_region_witness :
    createInputTile (TileDimensions.ofBounds 1 1 4 4) (Layer.other 2 5 9 9 4 4) =
        { startw := 0, endw := 0, starth := 0, endh := 0, width := 1, height := 1 } ∧
    ∃ p, FusedTilePartitioner.create
        { layers := [Layer.conv 1 3 9 9 9 9, Layer.other 2 5 9 9 4 4] } 2 3 2 = some p ∧
      ∀ h w, h < 3 → w < 2 →
        (p.tiles.get h w 1).input =
          { startw := 0, endw := 0, starth := 0, endh := 0, width := 1, height := 1 } :=
  unsupported_layer_default_region (TileDimensions.ofBounds 1 1 4 4) (Layer.other 2 5 9 9 4 4)
    (by decide) (by decide) { layers := [Layer.conv 1 3 9 9 9 9, Layer.other 2 5 9 9 4 4] }
    2 3 2 1 (by decide) (by decide) (by decide) (by decide) (by decide) rfl

/-! ## Index arithmetic of the channel-major layout -/

theorem mem_intRange (lo hi x : Int) : x ∈ intRange lo hi ↔ lo ≤ x ∧ x ≤ hi := by
  unfold intRange
  rw [List.mem_map]
  constructor
  · rintro ⟨k, hk, rfl⟩
    rw [List.mem_range] at hk
    omega
  · rintro ⟨h1, h2⟩
    refine ⟨(x - lo).toNat, ?_, ?_⟩
    · rw [List.mem_range]
      omega
    · omega

/-- Bounds of `a + A * (b + B * c)` for digits `a < A`, `b < B`, `c < C`. -/
theorem layout_bounds (a b c A B C : Int) (ha : 0 ≤ a) (ha' : a < A) (hb : 0 ≤ b) (hb' : b < B)
    (hc : 0 ≤ c) (hc' : c < C) :
    0 ≤ a + A * (b + B * c) ∧ a + A * (b + B * c) < A * B * C := by
  have hA : 0 < A := by omega
  have hB : 0 < B := by omega
  have h1 : 0 ≤ B * c := mul_nonneg (le_of_lt hB) hc
  have h2 : 0 ≤ A * (b + B * c) := mul_nonneg (le_of_lt hA) (by omega)
  have h3 : B * (c + 1) ≤ B * C := Int.mul_le_mul_of_nonneg_left (by omega) (le_of_lt hB)
  have h4 : b + B * c + 1 ≤ B * C := by
    have : B * (c + 1) = B * c + B := by ring
    omega
  have h5 : A * (b + B * c + 1) ≤ A * (B * C) :=
    Int.mul_le_mul_of_nonneg_left h4 (le_of_lt hA)
  have h6 : A * (b + B * c + 1) = A * (b + B * c) + A := by ring
  have h7 : A * (B * C) = A * B * C := by ring
  constructor
  · omega
  · omega

/-- A number `a + A * x` with `0 ≤ a < A` determines `a` and `x`. -/
theorem digit_unique (a a' x x' A : Int) (ha : 0 ≤ a) (haA : a < A) (ha' : 0 ≤ a') (haA' : a' < A)
    (e : a + A * x = a' + A * x') : a = a' ∧ x = x' := by
  have hA : 0 < A := by omega
  have h1 : (a + A * x) % A = a := by
    rw [Int.add_mul_emod_self_left]
    exact Int.emod_eq_of_lt ha haA
  have h2 : (a' + A * x') % A = a' := by
    rw [Int.add_mul_emod_self_left]
    exact Int.emod_eq_of_lt ha' haA'
  have haa : a = a' := by rw [← h1, ← h2, e]
  refine ⟨haa, ?_⟩
  have h3 : A * x = A * x' := by omega
  exact mul_left_cancel₀ (ne_of_gt hA) h3

/-- The layout index `a + A * (b + B * c)` determines its three digits. -/
theorem layout_injective (a b c a' b' c' A B : Int) (ha : 0 ≤ a) (haA : a < A) (ha' : 0 ≤ a')
    (haA' : a' < A) (hb : 0 ≤ b) (hbB : b < B) (hb' : 0 ≤ b') (hbB' : b' < B)
    (e : a + A * (b + B * c) = a' + A * (b' + B * c')) : a = a' ∧ b = b' ∧ c = c' := by
  obtain ⟨h1, h2⟩ := digit_unique a a' _ _ A ha haA ha' haA' e
  obtain ⟨h3, h4⟩ := digit_unique b b' _ _ B hb hbB hb' hbB' h2
  exact ⟨h1, h3, h4⟩

theorem croppedIdx_eq (dims : TileDimensions) (c h w : Int) :
    croppedIdx dims c h w =
      (w - dims.startw) + dims.width * ((h - dims.starth) + dims.height * c) := by
  unfold croppedIdx
  ring

/-! ## A loop of stores -/

/-- Running `scatterStep` over a list of indices succeeds when every load
succeeds and every position is inside the buffer.  If two indices that hit the
same position always carry the same value, the final buffer holds at `ix k`
the value loaded for `k`; positions hit by no index are unchanged. -/
theorem scatter_spec {K β : Type} (rd : K → Option β) (ix : K → Int) :
    ∀ (ks : List K) (buf : List β),
      (∀ k ∈ ks, (rd k).isSome = true ∧ 0 ≤ ix k ∧ ix k < (buf.length : Int)) →
      (∀ k ∈ ks, ∀ k' ∈ ks, ix k = ix k' → rd k = rd k') →
      ∃ buf', ks.foldlM (scatterStep rd ix) buf = some buf' ∧ buf'.length = buf.length ∧
        (∀ k ∈ ks, buf'[(ix k).toNat]? = rd k) ∧
        (∀ i : Nat, (∀ k ∈ ks, ix k ≠ (i : Int)) → buf'[i]? = buf[i]?) := by
  intro ks
  induction ks with
  | nil =>
    intro buf _ _
    exact ⟨buf, rfl, rfl, fun k hk => absurd hk (List.not_mem_nil k), fun _ _ => rfl⟩
  | cons k ks ih =>
    intro buf hin hsame
    obtain ⟨hv, h0, h1⟩ := hin k (List.mem_cons_self _ _)
    obtain ⟨v, hv⟩ := Option.isSome_iff_exists.mp hv
    have hstep : scatterStep rd ix buf k = some (buf.set (ix k).toNat v) := by
      simp [scatterStep, hv, writeAt, h0, h1]
    obtain ⟨buf', hrun, hlen, hval, hframe⟩ := ih (buf.set (ix k).toNat v)
      (fun k' hk' => by
        have := hin k' (List.mem_cons_of_mem _ hk')
        rw [List.length_set]
        exact this)
      (fun a ha b hb => hsame a (List.mem_cons_of_mem _ ha) b (List.mem_cons_of_mem _ hb))
    have hkpos : (ix k).toNat < buf.length := by omega
    refine ⟨buf', ?_, ?_, ?_, ?_⟩
    · rw [List.foldlM_cons, hstep]
      exact hrun
    · rw [hlen, List.length_set]
    · intro k' hk'
      rcases List.mem_cons.mp hk' with rfl | hk'
      · by_cases hex : ∃ k'' ∈ ks, ix k'' = ix k'
        · obtain ⟨k'', hk'', e⟩ := hex
          rw [← e, hval k'' hk'']
          exact hsame k'' (List.mem_cons_of_mem _ hk'') k' (List.mem_cons_self _ _) e
        · rw [hframe (ix k').toNat (fun k'' hk'' e => hex ⟨k'', hk'', by omega⟩)]
          rw [List.getElem?_set]
          simp [hkpos, hv]
      · exact hval k' hk'
    · intro i hi
      rw [hframe i (fun k' hk' => hi k' (List.mem_cons_of_mem _ hk'))]
      have hne : (ix k).toNat ≠ i := by
        have := hi k (List.mem_cons_self _ _)
        omega
      rw [List.getElem?_set]
      simp [hne]

/-! ## `cropData` -/

theorem readAt_eq {β : Type} (data : List β) (i : Int) (h0 : 0 ≤ i) (h1 : i < (data.length : Int)) :
    ∃ v, readAt data i = some v ∧ data[i.toNat]? = some v := by
  have hlt : i.toNat < data.length := by omega
  exact ⟨data[i.toNat], by simp [readAt, h0, List.getElem?_eq_getElem hlt],
    List.getElem?_eq_getElem hlt⟩

theorem toSizeT_of_nonneg (x : Int) (hx : 0 ≤ x) : ((toSizeT x : Nat) : Int) = x := by
  unfold toSizeT
  rw [if_pos hx]
  omega

/-- The three loops of `cropData` as one loop of stores over the index
triples `(c, h, w)`. -/
theorem cropData_flat {α : Type} (dims : TileDimensions) (layerh layerw layerc : Int)
    (data : List α) :
    cropData dims layerh layerw layerc data =
      (((intRange 0 (layerc - 1)).product
          ((intRange dims.starth dims.endh).product (intRange dims.startw dims.endw))).foldlM
        (scatterStep
          (fun q : Int × Int × Int => (readAt data (dataIdx layerh layerw q.1 q.2.1 q.2.2)).map some)
          (fun q : Int × Int × Int => croppedIdx dims q.1 q.2.1 q.2.2))
        (List.replicate (toSizeT (dims.height * dims.width * layerc)) none)).map
        fun buf => (buf, toSizeT (dims.height * dims.width * layerc)) := by
  have inner : ∀ (c : Int) (bc : List (Option α)),
      (intRange dims.starth dims.endh).foldlM (fun bh h =>
        (intRange dims.startw dims.endw).foldlM (fun bw w =>
          cropStep dims layerh layerw data c h w bw) bh) bc =
      ((intRange dims.starth dims.endh).product (intRange dims.startw dims.endw)).foldlM
        (fun s p => cropStep dims layerh layerw data c p.1 p.2 s) bc :=
    fun c bc => foldlM_product (fun s h w => cropStep dims layerh layerw data c h w s) _ _ bc
  have hstep : (fun (s : List (Option α)) (q : Int × Int × Int) =>
      cropStep dims layerh layerw data q.1 q.2.1 q.2.2 s) =
      scatterStep
        (fun q : Int × Int × Int => (readAt data (dataIdx layerh layerw q.1 q.2.1 q.2.2)).map some)
        (fun q : Int × Int × Int => croppedIdx dims q.1 q.2.1 q.2.2) := by
    funext s q
    unfold cropStep scatterStep
    dsimp only
    cases readAt data (dataIdx layerh layerw q.1 q.2.1 q.2.2) <;> rfl
  have outer := foldlM_product
    (fun (s : List (Option α)) (c : Int) (p : Int × Int) => cropStep dims layerh layerw data c p.1 p.2 s)
    ((intRange dims.starth dims.endh).product (intRange dims.startw dims.endw))
    (intRange 0 (layerc - 1)) (List.replicate (toSizeT (dims.height * dims.width * layerc)) none)
  beta_reduce at outer
  unfold cropData
  simp only [inner]
  rw [outer, hstep]

/-- For a non-empty region with derived sizes that lies inside a source array
of shape `(layerh, layerw, layerc)`, `cropData` succeeds: both indices of every
iteration are in range, the destination has `width * height * layerc` cells, and
each cell written holds the source value of its iteration. -/
theorem cropData_spec {α : Type} (dims : TileDimensions) (layerh layerw layerc : Int)
    (data : List α) (hd : dims.derived)
    (hw : 0 ≤ dims.startw ∧ dims.startw ≤ dims.endw ∧ dims.endw < layerw)
    (hh : 0 ≤ dims.starth ∧ dims.starth ≤ dims.endh ∧ dims.endh < layerh)
    (hc : 0 ≤ layerc) (hlen : (data.length : Int) = layerw * layerh * layerc) :
    ∃ dest len, cropData dims layerh layerw layerc data = some (dest, len) ∧
      (len : Int) = dims.width * dims.height * layerc ∧ dest.length = len ∧
      ∀ c row col : Int, 0 ≤ c → c < layerc → dims.starth ≤ row → row ≤ dims.endh →
        dims.startw ≤ col → col ≤ dims.endw →
        0 ≤ croppedIdx dims c row col ∧ croppedIdx dims c row col < (len : Int) ∧
        0 ≤ dataIdx layerh layerw c row col ∧
        dataIdx layerh layerw c row col < (data.length : Int) ∧
        ∃ v, data[(dataIdx layerh layerw c row col).toNat]? = some v ∧
          dest[(croppedIdx dims c row col).toNat]? = some (some v) := by
  obtain ⟨hdw, hdh⟩ := hd
  have hprod : 0 ≤ dims.height * dims.width * layerc :=
    mul_nonneg (mul_nonneg (by omega) (by omega)) hc
  have hn : ((toSizeT (dims.height * dims.width * layerc) : Nat) : Int) =
      dims.width * dims.height * layerc := by
    rw [toSizeT_of_nonneg _ hprod]; ring
  -- bounds of both indices for an index triple of the loops
  have hbounds : ∀ c row col : Int, 0 ≤ c → c < layerc → dims.starth ≤ row → row ≤ dims.endh →
      dims.startw ≤ col → col ≤ dims.endw →
      0 ≤ croppedIdx dims c row col ∧
      croppedIdx dims c row col < dims.width * dims.height * layerc ∧
      0 ≤ dataIdx layerh layerw c row col ∧
      dataIdx layerh layerw c row col < (data.length : Int) := by
    intro c row col c0 c1 r0 r1 w0 w1
    have b1 := layout_bounds (col - dims.startw) (row - dims.starth) c dims.width dims.height
      layerc (by omega) (by omega) (by omega) (by omega) c0 c1
    have b2 := layout_bounds col row c layerw layerh layerc (by omega) (by omega) (by omega)
      (by omega) c0 c1
    rw [croppedIdx_eq, hlen]
    exact ⟨b1.1, b1.2, b2.1, b2.2⟩
  have hmem : ∀ q : Int × Int × Int,
      q ∈ (intRange 0 (layerc - 1)).product
        ((intRange dims.starth dims.endh).product (intRange dims.startw dims.endw)) ↔
      (0 ≤ q.1 ∧ q.1 < layerc) ∧ (dims.starth ≤ q.2.1 ∧ q.2.1 ≤ dims.endh) ∧
        (dims.startw ≤ q.2.2 ∧ q.2.2 ≤ dims.endw) := by
    rintro ⟨c, h, w⟩
    rw [List.pair_mem_product, List.pair_mem_product, mem_intRange, mem_intRange, mem_intRange]
    constructor
    · rintro ⟨⟨a, b⟩, c, d⟩; exact ⟨⟨a, by omega⟩, c, d⟩
    · rintro ⟨⟨a, b⟩, c, d⟩; exact ⟨⟨a, by omega⟩, c, d⟩
  obtain ⟨dest, hrun, hlen', hval, _⟩ := scatter_spec
    (fun q : Int × Int × Int => (readAt data (dataIdx layerh layerw q.1 q.2.1 q.2.2)).map some)
    (fun q : Int × Int × Int => croppedIdx dims q.1 q.2.1 q.2.2)
    ((intRange 0 (layerc - 1)).product
      ((intRange dims.starth dims.endh).product (intRange dims.startw dims.endw)))
    (List.replicate (toSizeT (dims.height * dims.width * layerc)) none)
    (by
      intro q hq
      obtain ⟨⟨c0, c1⟩, ⟨r0, r1⟩, w0, w1⟩ := (hmem q).mp hq
      obtain ⟨b1, b2, b3, b4⟩ := hbounds q.1 q.2.1 q.2.2 c0 c1 r0 r1 w0 w1
      obtain ⟨v, hv, _⟩ := readAt_eq data _ b3 b4
      refine ⟨by simp [hv], b1, ?_⟩
      rw [List.length_replicate, hn]
      exact b2)
    (by
      intro q hq q' hq' e
      obtain ⟨⟨c0, c1⟩, ⟨r0, r1⟩, w0, w1⟩ := (hmem q).mp hq
      obtain ⟨⟨c0', c1'⟩, ⟨r0', r1'⟩, w0', w1'⟩ := (hmem q').mp hq'
      simp only [croppedIdx_eq] at e
      obtain ⟨e1, e2, e3⟩ := layout_injective _ _ _ _ _ _ dims.width dims.height
        (by omega) (by omega) (by omega) (by omega) (by omega) (by omega) (by omega) (by omega) e
      have : q = q' := by
        obtain ⟨c, h, w⟩ := q
        obtain ⟨c', h', w'⟩ := q'
        simp only at e1 e2 e3 ⊢
        have hw : w = w' := by omega
        have hh : h = h' := by omega
        rw [hw, hh, e3]
      rw [this])
  rw [List.length_replicate] at hlen'
  refine ⟨dest, toSizeT (dims.height * dims.width * layerc), ?_, hn, hlen', ?_⟩
  · rw [cropData_flat, hrun]
    rfl
  · intro c row col c0 c1 r0 r1 w0 w1
    obtain ⟨b1, b2, b3, b4⟩ := hbounds c row col c0 c1 r0 r1 w0 w1
    obtain ⟨v, hv, hv'⟩ := readAt_eq data _ b3 b4
    refine ⟨b1, by rw [hn]; exact b2, b3, b4, v, hv', ?_⟩
    have := hval (c, row, col) ((hmem (c, row, col)).mpr ⟨⟨c0, c1⟩, ⟨r0, r1⟩, w0, w1⟩)
    simp only [hv, Option.map_some'] at this
    exact this

/-- C5: for a non-empty region with derived sizes lying inside a source array
of shape `(fullHeight, fullWidth, channels)`, `cropData` returns a buffer
`dest` and a length such that, for every channel `c` and every `(row, col)` of
the region, `dest[(col - startCol) + width * ((row - startRow) + height * c)]`
is `src[col + fullWidth * (row + fullHeight * c)]`, and the reported length is
`width * height * channels`. -/
theorem cropData_copy_contract {α : Type} (dims : TileDimensions)
    (fullHeight fullWidth channels : Int) (src : List α) (hd : dims.derived)
    (hw : 0 ≤ dims.startw ∧ dims.startw ≤ dims.endw ∧ dims.endw < fullWidth)
    (hh : 0 ≤ dims.starth ∧ dims.starth ≤ dims.endh ∧ dims.endh < fullHeight)
    (hc : 0 ≤ channels) (hlen : (src.length : Int) = fullWidth * fullHeight * channels) :
    ∃ dest len, cropData dims fullHeight fullWidth channels src = some (dest, len) ∧
      (len : Int) = dims.width * dims.height * channels ∧
      ∀ c row col : Int, 0 ≤ c → c < channels → dims.starth ≤ row → row ≤ dims.endh →
        dims.startw ≤ col → col ≤ dims.endw →
        ∃ v, src[(col + fullWidth * (row + fullHeight * c)).toNat]? = some v ∧
          dest[((col - dims.startw) +
            dims.width * ((row - dims.starth) + dims.height * c)).toNat]? = some (some v) := by
  obtain ⟨dest, len, hrun, hl, _, hval⟩ :=
    cropData_spec dims fullHeight fullWidth channels src hd hw hh hc hlen
  refine ⟨dest, len, hrun, hl, ?_⟩
  intro c row col c0 c1 r0 r1 w0 w1
  obtain ⟨_, _, _, _, v, hv, hv'⟩ := hval c row col c0 c1 r0 r1 w0 w1
  rw [croppedIdx_eq] at hv'
  exact ⟨v, hv, hv'⟩

/-- Witness for C5: the region rows `[1,2]` x columns `[1,2]` of a 3 x 4 array
with two channels holding `0 .. 23`. -/
theorem cropData_copy_contract_witness :
    ∃ dest len, cropData (TileDimensions.ofBounds 1 1 2 2) 3 4 2 (List.range 24) = some (dest, len) ∧
      (len : Int) = (TileDimensions.ofBounds 1 1 2 2).width *
        (TileDimensions.ofBounds 1 1 2 2).height * 2 ∧
      ∀ c row col : Int, 0 ≤ c → c < 2 → (TileDimensions.ofBounds 1 1 2 2).starth ≤ row →
        row ≤ (TileDimensions.ofBounds 1 1 2 2).endh →
        (TileDimensions.ofBounds 1 1 2 2).startw ≤ col →
        col ≤ (TileDimensions.ofBounds 1 1 2 2).endw →
        ∃ v, (List.range 24)[(col + 4 * (row + 3 * c)).toNat]? = some v ∧
          dest[((col - (TileDimensions.ofBounds 1 1 2 2).startw) +
            (TileDimensions.ofBounds 1 1 2 2).width *
              ((row - (TileDimensions.ofBounds 1 1 2 2).starth) +
                (TileDimensions.ofBounds 1 1 2 2).height * c)).toNat]? = some (some v) :=
  cropData_copy_contract (TileDimensions.ofBounds 1 1 2 2) 3 4 2 (List.range 24)
    (by decide) (by decide) (by decide) (by decide) (by decide)

/-! ## Crop, then reinsert -/

/-- The three loops of `reinsert` as one loop of stores. -/
theorem reinsert_flat {α : Type} (zero : α) (dims : TileDimensions) (layerh layerw layerc : Int)
    (cropped : List (Option α)) :
    reinsert zero dims layerh layerw layerc cropped =
      ((intRange 0 (layerc - 1)).product
          ((intRange dims.starth dims.endh).product (intRange dims.startw dims.endw))).foldlM
        (scatterStep
          (fun q : Int × Int × Int => (readAt cropped (croppedIdx dims q.1 q.2.1 q.2.2)).bind id)
          (fun q : Int × Int × Int => dataIdx layerh layerw q.1 q.2.1 q.2.2))
        (List.replicate (toSizeT (layerh * layerw * layerc)) zero) := by
  have inner : ∀ (c : Int) (bc : List α),
      (intRange dims.starth dims.endh).foldlM (fun bh h =>
        (intRange dims.startw dims.endw).foldlM (fun bw w =>
          reinsertStep dims layerh layerw cropped c h w bw) bh) bc =
      ((intRange dims.starth dims.endh).product (intRange dims.startw dims.endw)).foldlM
        (fun s p => reinsertStep dims layerh layerw cropped c p.1 p.2 s) bc :=
    fun c bc => foldlM_product (fun s h w => reinsertStep dims layerh layerw cropped c h w s) _ _ bc
  have hstep : (fun (s : List α) (q : Int × Int × Int) =>
      reinsertStep dims layerh layerw cropped q.1 q.2.1 q.2.2 s) =
      scatterStep
        (fun q : Int × Int × Int => (readAt cropped (croppedIdx dims q.1 q.2.1 q.2.2)).bind id)
        (fun q : Int × Int × Int => dataIdx layerh layerw q.1 q.2.1 q.2.2) := by
    funext s q
    unfold reinsertStep scatterStep
    dsimp only
    rcases readAt cropped (croppedIdx dims q.1 q.2.1 q.2.2) with _ | _ | v <;> rfl
  have outer := foldlM_product
    (fun (s : List α) (c : Int) (p : Int × Int) => reinsertStep dims layerh layerw cropped c p.1 p.2 s)
    ((intRange dims.starth dims.endh).product (intRange dims.startw dims.endw))
    (intRange 0 (layerc - 1)) (List.replicate (toSizeT (layerh * layerw * layerc)) zero)
  beta_reduce at outer
  unfold reinsert
  simp only [inner]
  rw [outer, hstep]

/-- C6: for a source array of shape `(fullHeight, fullWidth, channels)` and a
non-empty in-bounds region with derived sizes, scattering the buffer returned
by `cropData` into an all-zero array of the same shape at the same offsets
succeeds and yields an array of the source's length that equals the source on
every cell of the region in every channel and is zero on every other cell. -/
theorem crop_reinsert_identity {α : Type} (zero : α) (dims : TileDimensions)
    (fullHeight fullWidth channels : Int) (src : List α) (hd : dims.derived)
    (hw : 0 ≤ dims.startw ∧ dims.startw ≤ dims.endw ∧ dims.endw < fullWidth)
    (hh : 0 ≤ dims.starth ∧ dims.starth ≤ dims.endh ∧ dims.endh < fullHeight)
    (hc : 0 ≤ channels) (hlen : (src.length : Int) = fullWidth * fullHeight * channels) :
    ∃ dest len full, cropData dims fullHeight fullWidth channels src = some (dest, len) ∧
      reinsert zero dims fullHeight fullWidth channels dest = some full ∧
      full.length = src.length ∧
      ∀ c row col : Int, 0 ≤ c → c < channels → 0 ≤ row → row < fullHeight →
        0 ≤ col → col < fullWidth →
        full[(col + fullWidth * (row + fullHeight * c)).toNat]? =
          if dims.contains row col then src[(col + fullWidth * (row + fullHeight * c)).toNat]?
          else some zero := by
  obtain ⟨dest, len, hrun, _, _, hval⟩ :=
    cropData_spec dims fullHeight fullWidth channels src hd hw hh hc hlen
  have hprod : 0 ≤ fullHeight * fullWidth * channels :=
    mul_nonneg (mul_nonneg (by omega) (by omega)) hc
  have hn : toSizeT (fullHeight * fullWidth * channels) = src.length := by
    have h1 := toSizeT_of_nonneg _ hprod
    have h2 : fullHeight * fullWidth * channels = fullWidth * fullHeight * channels := by ring
    omega
  have hmem : ∀ q : Int × Int × Int,
      q ∈ (intRange 0 (channels - 1)).product
        ((intRange dims.starth dims.endh).product (intRange dims.startw dims.endw)) ↔
      (0 ≤ q.1 ∧ q.1 < channels) ∧ (dims.starth ≤ q.2.1 ∧ q.2.1 ≤ dims.endh) ∧
        (dims.startw ≤ q.2.2 ∧ q.2.2 ≤ dims.endw) := by
    rintro ⟨c, h, w⟩
    rw [List.pair_mem_product, List.pair_mem_product, mem_intRange, mem_intRange, mem_intRange]
    constructor
    · rintro ⟨⟨a, b⟩, c, d⟩; exact ⟨⟨a, by omega⟩, c, d⟩
    · rintro ⟨⟨a, b⟩, c, d⟩; exact ⟨⟨a, by omega⟩, c, d⟩
  -- the value re-inserted for an index triple of the loops is the source value
  have hrd : ∀ q : Int × Int × Int,
      q ∈ (intRange 0 (channels - 1)).product
        ((intRange dims.starth dims.endh).product (intRange dims.startw dims.endw)) →
      (readAt dest (croppedIdx dims q.1 q.2.1 q.2.2)).bind id =
        src[(dataIdx fullHeight fullWidth q.1 q.2.1 q.2.2).toNat]? ∧
      (src[(dataIdx fullHeight fullWidth q.1 q.2.1 q.2.2).toNat]?).isSome = true ∧
      0 ≤ dataIdx fullHeight fullWidth q.1 q.2.1 q.2.2 ∧
      dataIdx fullHeight fullWidth q.1 q.2.1 q.2.2 < (src.length : Int) := by
    intro q hq
    obtain ⟨⟨c0, c1⟩, ⟨r0, r1⟩, w0, w1⟩ := (hmem q).mp hq
    obtain ⟨b1, _, b3, b4, v, hv, hv'⟩ := hval q.1 q.2.1 q.2.2 c0 c1 r0 r1 w0 w1
    refine ⟨?_, by rw [hv]; rfl, b3, b4⟩
    rw [hv]
    unfold readAt
    rw [if_pos b1, hv']
    rfl
  have hinj : ∀ c row col c' row' col' : Int, 0 ≤ row → row < fullHeight → 0 ≤ col →
      col < fullWidth → 0 ≤ row' → row' < fullHeight → 0 ≤ col' → col' < fullWidth →
      dataIdx fullHeight fullWidth c row col = dataIdx fullHeight fullWidth c' row' col' →
      col = col' ∧ row = row' ∧ c = c' := by
    intro c row col c' row' col' r0 r1 w0 w1 r0' r1' w0' w1' e
    exact layout_injective _ _ _ _ _ _ fullWidth fullHeight w0 w1 w0' w1' r0 r1 r0' r1' e
  obtain ⟨full, hfull, hflen, hfval, hframe⟩ := scatter_spec
    (fun q : Int × Int × Int => (readAt dest (croppedIdx dims q.1 q.2.1 q.2.2)).bind id)
    (fun q : Int × Int × Int => dataIdx fullHeight fullWidth q.1 q.2.1 q.2.2)
    ((intRange 0 (channels - 1)).product
      ((intRange dims.starth dims.endh).product (intRange dims.startw dims.endw)))
    (List.replicate (toSizeT (fullHeight * fullWidth * channels)) zero)
    (by
      intro q hq
      obtain ⟨e, hs, b3, b4⟩ := hrd q hq
      refine ⟨by simp only [e, hs], b3, ?_⟩
      rw [List.length_replicate, hn]
      exact b4)
    (by
      intro q hq q' hq' e
      obtain ⟨⟨c0, c1⟩, ⟨r0, r1⟩, w0, w1⟩ := (hmem q).mp hq
      obtain ⟨⟨c0', c1'⟩, ⟨r0', r1'⟩, w0', w1'⟩ := (hmem q').mp hq'
      obtain ⟨e1, e2, e3⟩ := hinj _ _ _ _ _ _ (by omega) (by omega) (by omega) (by omega)
        (by omega) (by omega) (by omega) (by omega) e
      have : q = q' := by
        obtain ⟨c, h, w⟩ := q
        obtain ⟨c', h', w'⟩ := q'
        have e1' : w = w' := e1
        have e2' : h = h' := e2
        have e3' : c = c' := e3
        rw [e1', e2', e3']
      rw [this])
  rw [List.length_replicate, hn] at hflen
  refine ⟨dest, len, full, hrun, ?_, hflen, ?_⟩
  · rw [reinsert_flat]
    exact hfull
  · intro c row col c0 c1 r0 r1 w0 w1
    have hidx : col + fullWidth * (row + fullHeight * c) = dataIdx fullHeight fullWidth c row col := rfl
    rw [hidx]
    by_cases hin : dims.contains row col
    · rw [if_pos hin]
      obtain ⟨a1, a2, a3, a4⟩ := hin
      have hq := (hmem (c, row, col)).mpr ⟨⟨c0, c1⟩, ⟨a1, a2⟩, a3, a4⟩
      rw [hfval (c, row, col) hq]
      exact (hrd (c, row, col) hq).1
    · rw [if_neg hin]
      have hb := layout_bounds col row c fullWidth fullHeight channels w0 w1 r0 r1 c0 c1
      have hb0 : 0 ≤ dataIdx fullHeight fullWidth c row col := hb.1
      have hb1 : dataIdx fullHeight fullWidth c row col < (src.length : Int) := by
        rw [hlen]; exact hb.2
      rw [hframe (dataIdx fullHeight fullWidth c row col).toNat]
      · rw [List.getElem?_replicate, hn, if_pos (by omega)]
      · intro q hq e
        obtain ⟨⟨c0', c1'⟩, ⟨r0', r1'⟩, w0', w1'⟩ := (hmem q).mp hq
        have e' : dataIdx fullHeight fullWidth q.1 q.2.1 q.2.2 =
            dataIdx fullHeight fullWidth c row col := by
          have e0 : dataIdx fullHeight fullWidth q.1 q.2.1 q.2.2 =
              ((dataIdx fullHeight fullWidth c row col).toNat : Int) := e
          omega
        obtain ⟨e1, e2, _⟩ := hinj _ _ _ _ _ _ (by omega) (by omega) (by omega) (by omega)
          r0 r1 w0 w1 e'
        exact hin ⟨by omega, by omega, by omega, by omega⟩

/-- Witness for C6: the region rows `[1,2]` x columns `[1,2]` of a 3 x 4 array
with two channels holding `1 .. 24`. -/
theorem crop_reinsert_identity_witness :
    ∃ dest len full,
      cropData (TileDimensions.ofBounds 1 1 2 2) 3 4 2 (List.range' 1 24) = some (dest, len) ∧
      reinsert 0 (TileDimensions.ofBounds 1 1 2 2) 3 4 2 dest = some full ∧
      full.length = (List.range' 1 24).length ∧
      ∀ c row col : Int, 0 ≤ c → c < 2 → 0 ≤ row → row < 3 → 0 ≤ col → col < 4 →
        full[(col + 4 * (row + 3 * c)).toNat]? =
          if (TileDimensions.ofBounds 1 1 2 2).contains row col then
            (List.range' 1 24)[(col + 4 * (row + 3 * c)).toNat]?
          else some 0 :=
  crop_reinsert_identity 0 (TileDimensions.ofBounds 1 1 2 2) 3 4 2 (List.range' 1 24)
    (by decide) (by decide) (by decide) (by decide) (by decide)

/-! ## Relative mode against absolute mode -/

theorem createInputTile_derived (out : TileDimensions) (l : Layer) :
    (createInputTile out l).derived := ⟨rfl, rfl⟩

/-- C7, as the code behaves at a concrete input: one convolutional layer with
stride 1 and kernel 1 on a 4x4 plane, 2 x 2 tiles.  Tile `(1, 1)` stores the
same region `[2,3] x [2,3]` as input and as output, yet on the buffer
`0 .. 15` the absolute crop returns the cells `10, 11, 14, 15` and the relative
crop returns the cells `0, 1, 4, 5`. -/
theorem relative_mode_counterexample :
    ∃ g, setupTiles { layers := [Layer.conv 1 1 4 4 4 4] } 2 2 1 = some g ∧
      (g.get 1 1 0).output = (g.get 1 1 0).input ∧
      (cropDataFromInput g 1 1 0 4 4 1 (List.range 16)).1 =
        some ([some 10, some 11, some 14, some 15], 4) ∧
      (cropDataFromRelative g 1 1 0 4 4 1 (List.range 16)).1 =
        some ([some 0, some 1, some 4, some 5], 4) ∧
      (cropDataFromRelative g 1 1 0 4 4 1 (List.range 16)).1 ≠
        (cropDataFromInput g 1 1 0 4 4 1 (List.range 16)).1 := by
  have e : (setupTiles { layers := [Layer.conv 1 1 4 4 4 4] } 2 2 1).map
      (fun g => ((g.get 1 1 0).output, (g.get 1 1 0).input,
        (cropDataFromInput g 1 1 0 4 4 1 (List.range 16)).1,
        (cropDataFromRelative g 1 1 0 4 4 1 (List.range 16)).1)) =
      some (TileDimensions.ofBounds 2 2 3 3, TileDimensions.ofBounds 2 2 3 3,
        some ([some 10, some 11, some 14, some 15], 4),
        some ([some 0, some 1, some 4, some 5], 4)) := rfl
  cases hg : setupTiles { layers := [Layer.conv 1 1 4 4 4 4] } 2 2 1 with
  | none =>
    rw [hg] at e
    cases e
  | some g =>
    rw [hg] at e
    simp only [Option.map_some', Option.some.injEq, Prod.mk.injEq] at e
    obtain ⟨e1, e2, e3, e4⟩ := e
    refine ⟨g, rfl, by rw [e1, e2], e3, e4, ?_⟩
    rw [e3, e4]
    decide

/-- C7, amended: for an in-range tile of the grid built by `setupTiles` (both
stride computations being defined) whose stored output region equals its stored
input region and whose region starts at row 0 and column 0,
`cropDataFromRelative` and `cropDataFromInput` applied to the same buffer and
layer dimensions return the same result: the same length and the same
contents. -/
theorem relative_eq_input_at_origin {α : Type} (m : Model) (W H L : Nat)
    (hlen : L ≤ m.layers.length) (h32 : L < 4294967296) (hs : stridesDefined m W H L = true)
    (h w l : Nat) (hh : h < H) (hw : w < W)
    (hl : l < L) (layerh layerw layerc : Int) (data : List α) :
    ∃ g, setupTiles m W H L = some g ∧
      ((g.get h w l).output = (g.get h w l).input →
        (g.get h w l).input.startw = 0 → (g.get h w l).input.starth = 0 →
        (cropDataFromRelative g h w l layerh layerw layerc data).1 =
          (cropDataFromInput g h w l layerh layerw layerc data).1) := by
  obtain ⟨g, _, _, _, _, _, _, hg, _, hspec⟩ :=
    setupTiles_spec m W H L (by omega) hlen (by omega) hs
  refine ⟨g, hg, ?_⟩
  intro heq hsw hsh
  have hlt : l < m.layers.length := by omega
  have hlayer : m.getLayer l = some (m.layers.get ⟨l, hlt⟩) := by
    simp [Model.getLayer, List.getElem?_eq_getElem hlt]
  have hin := (hspec h w hh hw).2.1 l _ hl hlayer
  have hder : (g.get h w l).input.derived := by
    rw [hin]
    exact createInputTile_derived _ _
  obtain ⟨hdw, hdh⟩ := hder
  have hrel : relativeRegion (g.get h w l) = (g.get h w l).input := by
    unfold relativeRegion
    rw [heq]
    cases hi : (g.get h w l).input with
    | mk sw ew sh eh wd ht =>
      rw [hi] at hsw hsh hdw hdh
      simp only at hsw hsh hdw hdh
      subst hsw hsh
      simp only [TileDimensions.mk.injEq]
      refine ⟨by ring, by ring, by ring, by ring, ?_, ?_⟩
      · rw [hdw]; ring
      · rw [hdh]; ring
  show cropData (relativeRegion (g.get h w l)) layerh layerw layerc data =
    cropData (g.get h w l).input layerh layerw layerc data
  rw [hrel]

/-- Witness for C7 (amended): tile `(0, 0)` of the grid of the counterexample,
whose input and output are both `[0,1] x [0,1]`. -/
theorem relative_eq_input_at_origin_witness :
    ∃ g, setupTiles { layers := [Layer.conv 1 1 4 4 4 4] } 2 2 1 = some g ∧
      (g.get 0 0 0).output = (g.get 0 0 0).input ∧
      (g.get 0 0 0).input.startw = 0 ∧ (g.get 0 0 0).input.starth = 0 ∧
      (cropDataFromRelative g 0 0 0 4 4 1 (List.range 16)).1 =
        (cropDataFromInput g 0 0 0 4 4 1 (List.range 16)).1 := by
  obtain ⟨g, hg, himp⟩ := relative_eq_input_at_origin
    { layers := [Layer.conv 1 1 4 4 4 4] } 2 2 1 (by decide) (by decide) (by decide) 0 0 0
    (by decide) (by decide) (by decide) 4 4 1 (List.range 16)
  have e : (setupTiles { layers := [Layer.conv 1 1 4 4 4 4] } 2 2 1).map
      (fun g => ((g.get 0 0 0).output, (g.get 0 0 0).input)) =
      some (TileDimensions.ofBounds 0 0 1 1, TileDimensions.ofBounds 0 0 1 1) := by decide
  rw [hg] at e
  simp only [Option.map_some', Option.some.injEq, Prod.mk.injEq] at e
  obtain ⟨e1, e2⟩ := e
  have h1 : (g.get 0 0 0).output = (g.get 0 0 0).input := by rw [e1, e2]
  have h2 : (g.get 0 0 0).input.startw = 0 := by rw [e2]; rfl
  have h3 : (g.get 0 0 0).input.starth = 0 := by rw [e2]; rfl
  exact ⟨g, hg, h1, h2, h3, himp h1 h2 h3⟩

/-! ## The seed: recurrence, sizes -/

/-- The pair carried by the seeding loop is the pair of the specification's
recurrence, as soon as the stride does not exceed the extent. -/
theorem axisBounds_eq_seed (s e : Int) (hse : s ≤ e) :
    ∀ i : Nat, axisBounds s e i = (seedStart s e i, seedEnd s e i) := by
  intro i
  induction i with
  | zero =>
    show ((0 : Int), s - 1) = (0, min (0 + s - 1) (e - 1))
    have : min (0 + s - 1) (e - 1) = s - 1 := by omega
    rw [this]
  | succ i ih =>
    have h1 : (axisBounds s e (i + 1)).1 = (axisBounds s e i).2 + 1 := rfl
    have h2 : (axisBounds s e (i + 1)).2 = min ((axisBounds s e i).2 + s) (e - 1) := rfl
    have h3 : seedStart s e (i + 1) = seedEnd s e i + 1 := rfl
    have h4 : seedEnd s e (i + 1) = min (seedStart s e (i + 1) + s - 1) (e - 1) := rfl
    rw [ih] at h1 h2
    simp only at h1 h2
    apply Prod.ext
    · rw [h1, h3]
    · rw [h2, h4, h3]
      congr 1
      omega

theorem seedStart_le_extent (s e : Int) (he : 0 ≤ e) : ∀ i : Nat, seedStart s e i ≤ e := by
  intro i
  cases i with
  | zero => exact he
  | succ i =>
    show min (seedStart s e i + s - 1) (e - 1) + 1 ≤ e
    omega

theorem seedStart_mono (s e : Int) (hs : 0 ≤ s) (he : 0 ≤ e) (i : Nat) :
    seedStart s e i ≤ seedStart s e (i + 1) := by
  have h := seedStart_le_extent s e he i
  show seedStart s e i ≤ min (seedStart s e i + s - 1) (e - 1) + 1
  omega

/-- Closed form of the running `start`: `min (i * stride) extent`. -/
theorem axisBounds_start (s e : Int) (hs : 0 ≤ s) (hse : s ≤ e) :
    ∀ i : Nat, (axisBounds s e i).1 = min ((i : Int) * s) e := by
  intro i
  cases i with
  | zero =>
    show (0 : Int) = min (((0 : Nat) : Int) * s) e
    simp only [Nat.cast_zero, zero_mul]
    omega
  | succ i =>
    rw [axisBounds_start_succ, axisBounds_stop s e hs hse i]
    have e1 : (((i + 1 : Nat) : Int)) * s = ((i : Int) + 1) * s := by push_cast; ring
    rw [e1]
    generalize ((i : Int) + 1) * s = t
    omega

/-- The seed recurrence where the computed strides are the exact ceilings: for
`W ≥ 1`, `H ≥ 1` and an output plane of the last fused layer with `layerW ≥ 1`,
`layerH ≥ 1`, the output region stored for tile `(h, w)` at layer `L-1` is
columns `[startCol w, endCol w]` x rows `[startRow h, endRow h]`; the column
bounds depend only on `w`, the row bounds only on `h`, and both follow the
recurrence `start 0 = 0`, `end i = min (start i + stride - 1) (extent - 1)`,
`start (i+1) = end i + 1` with `stride = ceil (extent / partitions)`; the
starts are non-decreasing along both axes. -/
theorem seed_recurrence_exact (m : Model) (W H L : Nat) (top : Layer)
    (hW : 1 ≤ W) (hH : 1 ≤ H) (h1 : 1 ≤ L) (hlen : L ≤ m.layers.length) (h32 : L < 4294967296)
    (htop : m.getLayer (L - 1) = some top) (hw : 1 ≤ top.out_w) (hh : 1 ≤ top.out_h)
    (hsw : strideOf top.out_w W = some (ceilDiv top.out_w W))
    (hsh : strideOf top.out_h H = some (ceilDiv top.out_h H)) :
    ∃ g, setupTiles m W H L = some g ∧
      (∀ h w, h < H → w < W →
        (g.get h w (L - 1)).output =
          TileDimensions.ofBounds (seedStart (ceilDiv top.out_w W) top.out_w w)
            (seedStart (ceilDiv top.out_h H) top.out_h h)
            (seedEnd (ceilDiv top.out_w W) top.out_w w)
            (seedEnd (ceilDiv top.out_h H) top.out_h h)) ∧
      (∀ stride extent : Int, seedStart stride extent 0 = 0 ∧
        (∀ i, seedEnd stride extent i = min (seedStart stride extent i + stride - 1) (extent - 1)) ∧
        (∀ i, seedStart stride extent (i + 1) = seedEnd stride extent i + 1)) ∧
      (∀ i, seedStart (ceilDiv top.out_w W) top.out_w i ≤
        seedStart (ceilDiv top.out_w W) top.out_w (i + 1)) ∧
      (∀ i, seedStart (ceilDiv top.out_h H) top.out_h i ≤
        seedStart (ceilDiv top.out_h H) top.out_h (i + 1)) := by
  obtain ⟨g, top', sw, sh, htop', hsw', hsh', hg, _, hspec⟩ :=
    setupTiles_spec m W H L h1 hlen (by omega)
      (stridesDefined_of m W H L top _ _ h1 (by omega) htop hsw hsh)
  rw [htop] at htop'
  cases htop'
  rw [hsw] at hsw'
  cases hsw'
  rw [hsh] at hsh'
  cases hsh'
  obtain ⟨hw1, hw2, _⟩ := ceilDiv_bounds top.out_w W hw hW
  obtain ⟨hh1, hh2, _⟩ := ceilDiv_bounds top.out_h H hh hH
  refine ⟨g, hg, ?_, fun _ _ => ⟨rfl, fun _ => rfl, fun _ => rfl⟩, ?_, ?_⟩
  · intro h w hh' hw'
    rw [(hspec h w hh' hw').1, axisBounds_eq_seed _ _ hw2 w, axisBounds_eq_seed _ _ hh2 h]
  · intro i
    exact seedStart_mono _ _ (by omega) (by omega) i
  · intro i
    exact seedStart_mono _ _ (by omega) (by omega) i

/-- The seed recurrence on a 5 x 7 output plane split into 3 columns and 2
rows. -/
theorem seed_recurrence_exact_small :
    ∃ g, setupTiles { layers := [Layer.conv 1 3 5 7 5 7] } 3 2 1 = some g ∧
      (∀ h w, h < 2 → w < 3 →
        (g.get h w (1 - 1)).output =
          TileDimensions.ofBounds (seedStart (ceilDiv (Layer.conv 1 3 5 7 5 7).out_w 3)
              (Layer.conv 1 3 5 7 5 7).out_w w)
            (seedStart (ceilDiv (Layer.conv 1 3 5 7 5 7).out_h 2) (Layer.conv 1 3 5 7 5 7).out_h h)
            (seedEnd (ceilDiv (Layer.conv 1 3 5 7 5 7).out_w 3) (Layer.conv 1 3 5 7 5 7).out_w w)
            (seedEnd (ceilDiv (Layer.conv 1 3 5 7 5 7).out_h 2)
              (Layer.conv 1 3 5 7 5 7).out_h h)) ∧
      (∀ stride extent : Int, seedStart stride extent 0 = 0 ∧
        (∀ i, seedEnd stride extent i = min (seedStart stride extent i + stride - 1) (extent - 1)) ∧
        (∀ i, seedStart stride extent (i + 1) = seedEnd stride extent i + 1)) ∧
      (∀ i, seedStart (ceilDiv (Layer.conv 1 3 5 7 5 7).out_w 3) (Layer.conv 1 3 5 7 5 7).out_w i ≤
        seedStart (ceilDiv (Layer.conv 1 3 5 7 5 7).out_w 3) (Layer.conv 1 3 5 7 5 7).out_w (i + 1)) ∧
      (∀ i, seedStart (ceilDiv (Layer.conv 1 3 5 7 5 7).out_h 2) (Layer.conv 1 3 5 7 5 7).out_h i ≤
        seedStart (ceilDiv (Layer.conv 1 3 5 7 5 7).out_h 2)
          (Layer.conv 1 3 5 7 5 7).out_h (i + 1)) :=
  seed_recurrence_exact { layers := [Layer.conv 1 3 5 7 5 7] } 3 2 1 (Layer.conv 1 3 5 7 5 7)
    (by decide) (by decide) (by decide) (by decide) (by decide) rfl (by decide) (by decide)
    (by decide) (by decide)

/-- C14, the code at a failing input: one Convolutional layer whose output plane
is 16777219 x 1 (`2^24 + 3` columns), one tile, one fused layer.  The quotient
`(float)16777219 / (float)1` is 16777220 in single precision, so the stride the
code computes is 16777220 where the exact ceiling is 16777219; the unclamped
first end is `stride - 1 = 16777219`, one past the last column, while the
recurrence gives `end 0 = min (0 + 16777219 - 1) (16777219 - 1) = 16777218`. -/
theorem seed_recurrence_float_divergence :
    strideOf 16777219 1 = some 16777220 ∧
    ceilDiv 16777219 1 = 16777219 ∧
    seedEnd (ceilDiv 16777219 1) 16777219 0 = 16777218 ∧
    ∃ g, setupTiles { layers := [Layer.conv 1 1 16777219 1 16777219 1] } 1 1 1 = some g ∧
      (g.get 0 0 0).output =
        { startw := 0, endw := 16777219, starth := 0, endh := 0, width := 16777220, height := 1 } ∧
      (g.get 0 0 0).output.endw ≠ seedEnd (ceilDiv 16777219 1) 16777219 0 ∧
      ¬ ((g.get 0 0 0).output.endw ≤ 16777219 - 1) := by
  have e : (setupTiles { layers := [Layer.conv 1 1 16777219 1 16777219 1] } 1 1 1).map
      (fun g => (g.get 0 0 0).output) =
      some { startw := 0, endw := 16777219, starth := 0, endh := 0, width := 16777220,
             height := 1 } := by
    decide
  refine ⟨by decide, by decide, by decide, ?_⟩
  cases hg : setupTiles { layers := [Layer.conv 1 1 16777219 1 16777219 1] } 1 1 1 with
  | none =>
    rw [hg] at e
    cases e
  | some g =>
    rw [hg] at e
    simp only [Option.map_some', Option.some.injEq] at e
    refine ⟨g, rfl, e, ?_, ?_⟩
    · rw [e]
      decide
    · rw [e]
      decide

/-- C15, as the code behaves at a concrete input: a 5 x 5 output plane split
into 4 columns and 1 row (`layerW = 5 ≥ W = 4`, `layerH = 5 ≥ H = 1`).  The
stride is 2, the columns are `[0,1]`, `[2,3]`, `[4,4]`, `[5,4]`: the last tile
has width 0. -/
theorem seed_tile_degenerate_counterexample :
    ∃ g, setupTiles { layers := [Layer.conv 1 3 5 5 5 5] } 4 1 1 = some g ∧
      (g.get 0 3 0).output =
        { startw := 5, endw := 4, starth := 0, endh := 4, width := 0, height := 5 } ∧
      ¬ (1 ≤ (g.get 0 3 0).output.width) := by
  have e : (setupTiles { layers := [Layer.conv 1 3 5 5 5 5] } 4 1 1).map
      (fun g => (g.get 0 3 0).output) =
      some { startw := 5, endw := 4, starth := 0, endh := 4, width := 0, height := 5 } := by
    decide
  cases hg : setupTiles { layers := [Layer.conv 1 3 5 5 5 5] } 4 1 1 with
  | none =>
    rw [hg] at e
    cases e
  | some g =>
    rw [hg] at e
    simp only [Option.map_some', Option.some.injEq] at e
    refine ⟨g, rfl, e, ?_⟩
    rw [e]
    decide

/-- C15, amended: for `1 ≤ W < 2^24`, `1 ≤ H < 2^24`, `1 ≤ layerW < 2^24`,
`1 ≤ layerH < 2^24`, every output region that `setupTiles` stores at layer
`L-1` has width `≥ 0` and height `≥ 0`; tile `(h, w)` has width `≥ 1` exactly
when `w * strideW < layerW` and height `≥ 1` exactly when
`h * strideH < layerH`, with the strides the ceilings of `layerW / W` and
`layerH / H`. -/
theorem seed_tile_sizes (m : Model) (W H L : Nat) (top : Layer)
    (hW : 1 ≤ W) (hH : 1 ≤ H) (hW' : W < 16777216) (hH' : H < 16777216)
    (h1 : 1 ≤ L) (hlen : L ≤ m.layers.length) (h32 : L < 4294967296)
    (htop : m.getLayer (L - 1) = some top) (hw : 1 ≤ top.out_w) (hh : 1 ≤ top.out_h)
    (hw' : top.out_w < 16777216) (hh' : top.out_h < 16777216) :
    ∃ g, setupTiles m W H L = some g ∧
      ∀ h w, h < H → w < W →
        0 ≤ (g.get h w (L - 1)).output.width ∧ 0 ≤ (g.get h w (L - 1)).output.height ∧
        (1 ≤ (g.get h w (L - 1)).output.width ↔ (w : Int) * ceilDiv top.out_w W < top.out_w) ∧
        (1 ≤ (g.get h w (L - 1)).output.height ↔ (h : Int) * ceilDiv top.out_h H < top.out_h) := by
  have hsw := strideOf_exact top.out_w W hw hw' hW hW'
  have hsh := strideOf_exact top.out_h H hh hh' hH hH'
  obtain ⟨g, top', sw, sh, htop', hsw', hsh', hg, _, hspec⟩ :=
    setupTiles_spec m W H L h1 hlen (by omega)
      (stridesDefined_of m W H L top _ _ h1 (by omega) htop hsw hsh)
  rw [htop] at htop'
  cases htop'
  rw [hsw] at hsw'
  cases hsw'
  rw [hsh] at hsh'
  cases hsh'
  obtain ⟨hw1, hw2, _⟩ := ceilDiv_bounds top.out_w W hw hW
  obtain ⟨hh1, hh2, _⟩ := ceilDiv_bounds top.out_h H hh hH
  refine ⟨g, hg, ?_⟩
  intro h w hh' hw'
  rw [(hspec h w hh' hw').1]
  have ws := axisBounds_start _ _ (by omega : (0 : Int) ≤ ceilDiv top.out_w W) hw2 w
  have we := axisBounds_stop _ _ (by omega : (0 : Int) ≤ ceilDiv top.out_w W) hw2 w
  have hs := axisBounds_start _ _ (by omega : (0 : Int) ≤ ceilDiv top.out_h H) hh2 h
  have he := axisBounds_stop _ _ (by omega : (0 : Int) ≤ ceilDiv top.out_h H) hh2 h
  have ew : ((w : Int) + 1) * ceilDiv top.out_w W = (w : Int) * ceilDiv top.out_w W +
      ceilDiv top.out_w W := by ring
  have eh : ((h : Int) + 1) * ceilDiv top.out_h H = (h : Int) * ceilDiv top.out_h H +
      ceilDiv top.out_h H := by ring
  rw [ew] at we
  rw [eh] at he
  simp only [TileDimensions.ofBounds]
  rw [ws, we, hs, he]
  generalize (w : Int) * ceilDiv top.out_w W = tw
  generalize (h : Int) * ceilDiv top.out_h H = th
  refine ⟨by omega, by omega, ?_, ?_⟩
  · constructor <;> intro hyp <;> omega
  · constructor <;> intro hyp <;> omega

/-- Witness for C15 (amended): the plane of the counterexample. -/
theorem seed_tile_sizes_witness :
    ∃ g, setupTiles { layers := [Layer.conv 1 3 5 5 5 5] } 4 1 1 = some g ∧
      ∀ h w, h < 1 → w < 4 →
        0 ≤ (g.get h w (1 - 1)).output.width ∧ 0 ≤ (g.get h w (1 - 1)).output.height ∧
        (1 ≤ (g.get h w (1 - 1)).output.width ↔
          (w : Int) * ceilDiv (Layer.conv 1 3 5 5 5 5).out_w 4 < (Layer.conv 1 3 5 5 5 5).out_w) ∧
        (1 ≤ (g.get h w (1 - 1)).output.height ↔
          (h : Int) * ceilDiv (Layer.conv 1 3 5 5 5 5).out_h 1 < (Layer.conv 1 3 5 5 5 5).out_h) :=
  seed_tile_sizes { layers := [Layer.conv 1 3 5 5 5 5] } 4 1 1 (Layer.conv 1 3 5 5 5 5)
    (by decide) (by decide) (by decide) (by decide) (by decide) (by decide) (by decide) rfl
    (by decide) (by decide) (by decide) (by decide)

/-- C16: in the grid built by `setupTiles` (both stride computations being
defined), for every in-range `(h, w, l)`, both the input and the output region
stored there satisfy `width = endw - startw + 1` and
`height = endh - starth + 1`, whatever the types of the fused layers. -/
theorem setupTiles_derived_sizes (m : Model) (W H L : Nat) (hlen : L ≤ m.layers.length)
    (h32 : L < 4294967296) (hs : stridesDefined m W H L = true)
    (h w l : Nat) (hh : h < H) (hw : w < W) (hl : l < L) :
    ∃ g, setupTiles m W H L = some g ∧
      (g.get h w l).input.width = (g.get h w l).input.endw - (g.get h w l).input.startw + 1 ∧
      (g.get h w l).input.height = (g.get h w l).input.endh - (g.get h w l).input.starth + 1 ∧
      (g.get h w l).output.width = (g.get h w l).output.endw - (g.get h w l).output.startw + 1 ∧
      (g.get h w l).output.height =
        (g.get h w l).output.endh - (g.get h w l).output.starth + 1 := by
  obtain ⟨g, _, _, _, _, _, _, hg, _, hspec⟩ :=
    setupTiles_spec m W H L (by omega) hlen (by omega) hs
  obtain ⟨hseed, hin, hch⟩ := hspec h w hh hw
  have hinput : ∀ l', l' < L → (g.get h w l').input.derived := by
    intro l' hl'
    have hlt : l' < m.layers.length := by omega
    have hlayer : m.getLayer l' = some (m.layers.get ⟨l', hlt⟩) := by
      simp [Model.getLayer, List.getElem?_eq_getElem hlt]
    rw [hin l' _ hl' hlayer]
    exact createInputTile_derived _ _
  have hout : (g.get h w l).output.derived := by
    by_cases htop : l + 1 < L
    · rw [hch l htop]
      exact hinput (l + 1) htop
    · have : l = L - 1 := by omega
      rw [this, hseed]
      exact ⟨rfl, rfl⟩
  exact ⟨g, hg, (hinput l hl).1, (hinput l hl).2, hout.1, hout.2⟩

/-- Witness for C16: layer 0 of tile `(1, 2)` in a prefix made of a
convolution, a layer of an unsupported kind and a pooling layer. -/
theorem setupTiles_derived_sizes_witness :
    ∃ g, setupTiles { layers := [Layer.conv 1 3 8 8 8 8, Layer.other 1 1 8 8 8 8,
          Layer.pool 2 2 8 8 4 4] } 3 2 3 = some g ∧
      (g.get 1 2 0).input.width = (g.get 1 2 0).input.endw - (g.get 1 2 0).input.startw + 1 ∧
      (g.get 1 2 0).input.height = (g.get 1 2 0).input.endh - (g.get 1 2 0).input.starth + 1 ∧
      (g.get 1 2 0).output.width = (g.get 1 2 0).output.endw - (g.get 1 2 0).output.startw + 1 ∧
      (g.get 1 2 0).output.height =
        (g.get 1 2 0).output.endh - (g.get 1 2 0).output.starth + 1 :=
  setupTiles_derived_sizes { layers := [Layer.conv 1 3 8 8 8 8, Layer.other 1 1 8 8 8 8,
      Layer.pool 2 2 8 8 4 4] } 3 2 3 (by decide) (by decide) (by decide) 1 2 0
    (by decide) (by decide) (by decide)

/-! ## MaxPool: the input regions tile the input plane -/

/-- For a MaxPool layer with stride `s ≥ 1`, a cell lies in the input region
of `t` exactly when the cell divided by `s` lies in `t`. -/
theorem maxpool_contains (t : TileDimensions) (l : Layer) (hty : l.type = LayerType.MAXPOOL)
    (hs : 1 ≤ l.stride) (row col : Int) :
    (createInputTile t l).contains row col ↔ t.contains (row / l.stride) (col / l.stride) := by
  have hpos : 0 < l.stride := by omega
  have e1 : (createInputTile t l).startw = t.startw * l.stride := by simp [createInputTile, hty]
  have e2 : (createInputTile t l).endw = t.endw * l.stride + l.stride - 1 := by
    simp [createInputTile, hty]
  have e3 : (createInputTile t l).starth = t.starth * l.stride := by simp [createInputTile, hty]
  have e4 : (createInputTile t l).endh = t.endh * l.stride + l.stride - 1 := by
    simp [createInputTile, hty]
  have lo : ∀ a x : Int, a * l.stride ≤ x ↔ a ≤ x / l.stride :=
    fun a x => (Int.le_ediv_iff_mul_le hpos).symm
  have hi : ∀ a x : Int, x ≤ a * l.stride + l.stride - 1 ↔ x / l.stride ≤ a := by
    intro a x
    have h1 : x / l.stride < a + 1 ↔ x < (a + 1) * l.stride := Int.ediv_lt_iff_lt_mul hpos
    have h2 : (a + 1) * l.stride = a * l.stride + l.stride := by ring
    constructor
    · intro h; have := h1.mpr (by omega); omega
    · intro h; have := h1.mp (by omega); omega
  unfold TileDimensions.contains
  rw [e1, e2, e3, e4, lo, lo, hi, hi]

/-- C17: for a MaxPool layer with stride `s ≥ 1`, `createInputTile` maps
adjacent output regions to adjacent input regions (if `b.start = a.end + 1`
then `input(b).start = input(a).end + 1`, on each axis), maps an output range
`[0, n-1]` to the input range `[0, n*s - 1]`, and maps any family of output
regions that partitions `[0, outH-1] x [0, outW-1]` to a family of input
regions that partitions `[0, outH*s - 1] x [0, outW*s - 1]`. -/
theorem maxpool_exact_tiling (l : Layer) (hty : l.type = LayerType.MAXPOOL) (hs : 1 ≤ l.stride) :
    (∀ a b : TileDimensions,
      (b.startw = a.endw + 1 → (createInputTile b l).startw = (createInputTile a l).endw + 1) ∧
      (b.starth = a.endh + 1 → (createInputTile b l).starth = (createInputTile a l).endh + 1)) ∧
    (∀ (t : TileDimensions) (n : Int),
      (t.startw = 0 → t.endw = n - 1 →
        (createInputTile t l).startw = 0 ∧ (createInputTile t l).endw = n * l.stride - 1) ∧
      (t.starth = 0 → t.endh = n - 1 →
        (createInputTile t l).starth = 0 ∧ (createInputTile t l).endh = n * l.stride - 1)) ∧
    (∀ (ι : Type) (fam : ι → TileDimensions) (outW outH : Int),
      (∀ i j, i ≠ j → ∀ row col, ¬ ((fam i).contains row col ∧ (fam j).contains row col)) →
      (∀ row col, (∃ i, (fam i).contains row col) ↔
        (0 ≤ row ∧ row ≤ outH - 1 ∧ 0 ≤ col ∧ col ≤ outW - 1)) →
      (∀ i j, i ≠ j → ∀ row col,
        ¬ ((createInputTile (fam i) l).contains row col ∧
           (createInputTile (fam j) l).contains row col)) ∧
      (∀ row col, (∃ i, (createInputTile (fam i) l).contains row col) ↔
        (0 ≤ row ∧ row ≤ outH * l.stride - 1 ∧ 0 ≤ col ∧ col ≤ outW * l.stride - 1))) := by
  have hpos : 0 < l.stride := by omega
  have e1 : ∀ t : TileDimensions, (createInputTile t l).startw = t.startw * l.stride := by
    intro t; simp [createInputTile, hty]
  have e2 : ∀ t : TileDimensions, (createInputTile t l).endw = t.endw * l.stride + l.stride - 1 := by
    intro t; simp [createInputTile, hty]
  have e3 : ∀ t : TileDimensions, (createInputTile t l).starth = t.starth * l.stride := by
    intro t; simp [createInputTile, hty]
  have e4 : ∀ t : TileDimensions, (createInputTile t l).endh = t.endh * l.stride + l.stride - 1 := by
    intro t; simp [createInputTile, hty]
  refine ⟨?_, ?_, ?_⟩
  · intro a b
    constructor
    · intro h; rw [e1, e2, h]; ring
    · intro h; rw [e3, e4, h]; ring
  · intro t n
    constructor
    · intro h0 h1
      rw [e1, e2, h0, h1]
      constructor <;> ring
    · intro h0 h1
      rw [e3, e4, h0, h1]
      constructor <;> ring
  · intro ι fam outW outH hdis hcov
    have plane : ∀ x ext : Int,
        (0 ≤ x / l.stride ∧ x / l.stride ≤ ext - 1) ↔ (0 ≤ x ∧ x ≤ ext * l.stride - 1) := by
      intro x ext
      have h0 : 0 ≤ x / l.stride ↔ 0 * l.stride ≤ x := Int.le_ediv_iff_mul_le hpos
      have h1 : x / l.stride < ext ↔ x < ext * l.stride := Int.ediv_lt_iff_lt_mul hpos
      constructor
      · rintro ⟨a, b⟩
        have := h0.mp a
        have := h1.mp (by omega)
        omega
      · rintro ⟨a, b⟩
        have := h0.mpr (by omega)
        have := h1.mpr (by omega)
        omega
    constructor
    · intro i j hij row col hboth
      rw [maxpool_contains _ l hty hs, maxpool_contains _ l hty hs] at hboth
      exact hdis i j hij _ _ hboth
    · intro row col
      have hr := plane row outH
      have hc := plane col outW
      have hcv := hcov (row / l.stride) (col / l.stride)
      constructor
      · rintro ⟨i, hi⟩
        rw [maxpool_contains _ l hty hs] at hi
        obtain ⟨a, b, c, d⟩ := hcv.mp ⟨i, hi⟩
        have := hr.mp ⟨a, b⟩
        have := hc.mp ⟨c, d⟩
        omega
      · rintro ⟨a, b, c, d⟩
        have r' := hr.mpr ⟨a, b⟩
        have c' := hc.mpr ⟨c, d⟩
        obtain ⟨i, hi⟩ := hcv.mpr ⟨r'.1, r'.2, c'.1, c'.2⟩
        exact ⟨i, (maxpool_contains _ l hty hs row col).mpr hi⟩

/-- Witness for C17: a stride-2 pooling layer; the adjacent column ranges
`[0,1]` and `[2,3]` go to `[0,3]` and `[4,7]`. -/
theorem maxpool_exact_tiling_witness :
    (createInputTile (TileDimensions.ofBounds 2 0 3 1) (Layer.pool 2 2 8 8 4 4)).startw =
      (createInputTile (TileDimensions.ofBounds 0 0 1 1) (Layer.pool 2 2 8 8 4 4)).endw + 1 ∧
    (createInputTile (TileDimensions.ofBounds 0 0 3 3) (Layer.pool 2 2 8 8 4 4)).endw =
      4 * (Layer.pool 2 2 8 8 4 4).stride - 1 :=
  ⟨((maxpool_exact_tiling (Layer.pool 2 2 8 8 4 4) rfl (by decide)).1
      (TileDimensions.ofBounds 0 0 1 1) (TileDimensions.ofBounds 2 0 3 1)).1 (by decide),
   (((maxpool_exact_tiling (Layer.pool 2 2 8 8 4 4) rfl (by decide)).2.1
      (TileDimensions.ofBounds 0 0 3 3) 4).1 (by decide) (by decide)).2⟩

/-! ## The relative region and the input-cropped buffer -/

/-- C18, as the code behaves at a concrete input: one pooling layer with stride
2 from an 8x8 to a 4x4 plane, 2 x 2 tiles.  Tile `(1, 1)` has output
`[2,3] x [2,3]` and input `[4,7] x [4,7]`; the relative region is
`[-2,-1] x [-2,-1]`, so its start is negative, and cropping a buffer of the
shape of the input region (4 x 4 x 1) with it leaves the buffer. -/
theorem relative_region_counterexample :
    ∃ g, setupTiles { layers := [Layer.pool 2 2 8 8 4 4] } 2 2 1 = some g ∧
      (g.get 1 1 0).output = TileDimensions.ofBounds 2 2 3 3 ∧
      (g.get 1 1 0).input = TileDimensions.ofBounds 4 4 7 7 ∧
      relativeRegion (g.get 1 1 0) = TileDimensions.ofBounds (-2) (-2) (-1) (-1) ∧
      ¬ (0 ≤ (relativeRegion (g.get 1 1 0)).startw) ∧
      (cropDataFromRelative g 1 1 0 4 4 1 (List.range 16)).1 = none := by
  have e : (setupTiles { layers := [Layer.pool 2 2 8 8 4 4] } 2 2 1).map
      (fun g => ((g.get 1 1 0).output, (g.get 1 1 0).input, relativeRegion (g.get 1 1 0),
        (cropDataFromRelative g 1 1 0 4 4 1 (List.range 16)).1)) =
      some (TileDimensions.ofBounds 2 2 3 3, TileDimensions.ofBounds 4 4 7 7,
        TileDimensions.ofBounds (-2) (-2) (-1) (-1), none) := rfl
  cases hg : setupTiles { layers := [Layer.pool 2 2 8 8 4 4] } 2 2 1 with
  | none =>
    rw [hg] at e
    cases e
  | some g =>
    rw [hg] at e
    simp only [Option.map_some', Option.some.injEq, Prod.mk.injEq] at e
    obtain ⟨e1, e2, e3, e4⟩ := e
    refine ⟨g, rfl, e1, e2, e3, ?_, e4⟩
    rw [e3]
    decide

/-- C18, amended: for `1 ≤ W < 2^24`, `1 ≤ H < 2^24` and a fused prefix in
which every layer is Convolutional with stride 1 and kernel size `≥ 0` and all
input and output planes have one common size `pw x ph` with `1 ≤ pw < 2^24`,
`1 ≤ ph < 2^24`, every in-range tile `(h, w, l)` of the grid built by
`setupTiles` has a relative region with `0 ≤ start` and
`end ≤ (input extent) - 1` on each axis; when the output region is not empty,
cropping a buffer of shape `(input.height, input.width, channels)` with it
succeeds, that is, reads only in-range cells. -/
theorem relative_inside_input_same_conv (m : Model) (W H L : Nat) (pw ph : Int)
    (hW : 1 ≤ W) (hH : 1 ≤ H) (hW' : W < 16777216) (hH' : H < 16777216)
    (hlen : L ≤ m.layers.length) (h32 : L < 4294967296)
    (hpw : 1 ≤ pw) (hph : 1 ≤ ph) (hpw' : pw < 16777216) (hph' : ph < 16777216)
    (hlayers : ∀ i ly, i < L → m.getLayer i = some ly →
      ly.type = LayerType.CONVOLUTIONAL ∧ ly.stride = 1 ∧ 0 ≤ ly.size ∧
      ly.w = pw ∧ ly.h = ph ∧ ly.out_w = pw ∧ ly.out_h = ph)
    (h w l : Nat) (hh : h < H) (hw : w < W) (hl : l < L) :
    ∃ g, setupTiles m W H L = some g ∧
      0 ≤ (relativeRegion (g.get h w l)).startw ∧
      (relativeRegion (g.get h w l)).endw ≤ (g.get h w l).input.width - 1 ∧
      0 ≤ (relativeRegion (g.get h w l)).starth ∧
      (relativeRegion (g.get h w l)).endh ≤ (g.get h w l).input.height - 1 ∧
      ∀ (α : Type) (data : List α) (layerc : Int), 0 ≤ layerc →
        (g.get h w l).output.startw ≤ (g.get h w l).output.endw →
        (g.get h w l).output.starth ≤ (g.get h w l).output.endh →
        (data.length : Int) = (g.get h w l).input.width * (g.get h w l).input.height * layerc →
        (cropDataFromRelative g h w l (g.get h w l).input.height (g.get h w l).input.width
          layerc data).1.isSome = true := by
  obtain ⟨top0, htop0⟩ : ∃ ly, m.getLayer (L - 1) = some ly := by
    have hlt : L - 1 < m.layers.length := by omega
    exact ⟨m.layers.get ⟨L - 1, hlt⟩, by simp [Model.getLayer, List.getElem?_eq_getElem hlt]⟩
  obtain ⟨_, _, _, _, _, how0, hoh0⟩ := hlayers (L - 1) top0 (by omega) htop0
  have hsw := strideOf_exact top0.out_w W (by omega) (by omega) hW hW'
  have hsh := strideOf_exact top0.out_h H (by omega) (by omega) hH hH'
  obtain ⟨g, top, sw, sh, htop, hsw', hsh', hg, _, hspec⟩ :=
    setupTiles_spec m W H L (by omega) hlen (by omega)
      (stridesDefined_of m W H L top0 _ _ (by omega) (by omega) htop0 hsw hsh)
  rw [htop0] at htop
  cases htop
  rw [hsw] at hsw'
  cases hsw'
  rw [hsh] at hsh'
  cases hsh'
  have htop := htop0
  obtain ⟨hseed, hin, hch⟩ := hspec h w hh hw
  have hget : ∀ i, i < L → ∃ ly, m.getLayer i = some ly := by
    intro i hi
    have hlt : i < m.layers.length := by omega
    exact ⟨m.layers.get ⟨i, hlt⟩, by simp [Model.getLayer, List.getElem?_eq_getElem hlt]⟩
  -- the fields of an input region computed for one of the layers
  have hconv : ∀ (o : TileDimensions) (ly : Layer), ly.type = LayerType.CONVOLUTIONAL →
      ly.stride = 1 → 0 ≤ ly.size → ly.w = pw → ly.h = ph →
      (createInputTile o ly).startw = max (o.startw - ly.size / 2) 0 ∧
      (createInputTile o ly).endw = min (o.endw + ly.size / 2) (pw - 1) ∧
      (createInputTile o ly).starth = max (o.starth - ly.size / 2) 0 ∧
      (createInputTile o ly).endh = min (o.endh + ly.size / 2) (ph - 1) ∧
      (createInputTile o ly).width =
        min (o.endw + ly.size / 2) (pw - 1) - max (o.startw - ly.size / 2) 0 + 1 ∧
      (createInputTile o ly).height =
        min (o.endh + ly.size / 2) (ph - 1) - max (o.starth - ly.size / 2) 0 + 1 := by
    intro o ly hty hs hk hw' hh'
    have hdiv : Int.tdiv ly.size 2 = ly.size / 2 := Int.tdiv_eq_ediv hk (by decide)
    simp [createInputTile, hty, hs, hdiv, hw', hh']
  -- the stored output region lies in the common plane
  have hout : 0 ≤ (g.get h w l).output.startw ∧ (g.get h w l).output.endw ≤ pw - 1 ∧
      0 ≤ (g.get h w l).output.starth ∧ (g.get h w l).output.endh ≤ ph - 1 := by
    by_cases hnext : l + 1 < L
    · obtain ⟨ly', hly'⟩ := hget (l + 1) hnext
      obtain ⟨hty, hs, hk, hw', hh', _, _⟩ := hlayers (l + 1) ly' hnext hly'
      rw [hch l hnext, (hspec h w hh hw).2.1 (l + 1) ly' hnext hly']
      obtain ⟨a, b, c, d, _, _⟩ := hconv (g.get h w (l + 1)).output ly' hty hs hk hw' hh'
      rw [a, b, c, d]
      have : 0 ≤ ly'.size / 2 := by omega
      omega
    · have hl' : l = L - 1 := by omega
      obtain ⟨_, _, _, _, _, how, hoh⟩ := hlayers (L - 1) top0 (by omega) htop
      obtain ⟨hw1, hw2, _⟩ := ceilDiv_bounds top0.out_w W (by omega) hW
      obtain ⟨hh1, hh2, _⟩ := ceilDiv_bounds top0.out_h H (by omega) hH
      have c0 := axisBounds_start_nonneg _ _ hw1 hw2 w
      have r0 := axisBounds_start_nonneg _ _ hh1 hh2 h
      have c1 := axisBounds_stop _ _ (by omega : (0 : Int) ≤ ceilDiv top0.out_w W) hw2 w
      have r1 := axisBounds_stop _ _ (by omega : (0 : Int) ≤ ceilDiv top0.out_h H) hh2 h
      rw [hl', hseed]
      simp only [TileDimensions.ofBounds]
      rw [c1, r1]
      refine ⟨c0, ?_, r0, ?_⟩ <;> omega
  obtain ⟨ly, hly⟩ := hget l hl
  obtain ⟨hty, hs, hk, hw', hh', _, _⟩ := hlayers l ly hl hly
  obtain ⟨a, b, c, d, e, f⟩ := hconv (g.get h w l).output ly hty hs hk hw' hh'
  have hk2 : 0 ≤ ly.size / 2 := by omega
  have hi := hin l ly hl hly
  obtain ⟨o1, o2, o3, o4⟩ := hout
  have r1 : (relativeRegion (g.get h w l)).startw =
      (g.get h w l).output.startw - (g.get h w l).input.startw := rfl
  have r2 : (relativeRegion (g.get h w l)).endw =
      (g.get h w l).output.startw - (g.get h w l).input.startw +
        ((g.get h w l).output.endw - (g.get h w l).output.startw) := rfl
  have r3 : (relativeRegion (g.get h w l)).starth =
      (g.get h w l).output.starth - (g.get h w l).input.starth := rfl
  have r4 : (relativeRegion (g.get h w l)).endh =
      (g.get h w l).output.starth - (g.get h w l).input.starth +
        ((g.get h w l).output.endh - (g.get h w l).output.starth) := rfl
  rw [← hi] at a b c d e f
  have b1 : 0 ≤ (relativeRegion (g.get h w l)).startw := by rw [r1, a]; omega
  have b2 : (relativeRegion (g.get h w l)).endw ≤ (g.get h w l).input.width - 1 := by
    rw [r2, a, e]; omega
  have b3 : 0 ≤ (relativeRegion (g.get h w l)).starth := by rw [r3, c]; omega
  have b4 : (relativeRegion (g.get h w l)).endh ≤ (g.get h w l).input.height - 1 := by
    rw [r4, c, f]; omega
  refine ⟨g, hg, b1, b2, b3, b4, ?_⟩
  intro α data layerc hc hne1 hne2 hdata
  obtain ⟨dest, len, hrun, _⟩ := cropData_spec (relativeRegion (g.get h w l))
    (g.get h w l).input.height (g.get h w l).input.width layerc data ⟨rfl, rfl⟩
    ⟨b1, by rw [r1, r2]; omega, by omega⟩ ⟨b3, by rw [r3, r4]; omega, by omega⟩ hc hdata
  show (cropData (relativeRegion (g.get h w l)) _ _ layerc data).isSome = true
  rw [hrun]
  rfl

/-- Witness for C18 (amended): two fused 3x3 convolutions of stride 1 on a
6x6 plane, 2 x 2 tiles; tile `(1, 1)` at layer 0. -/
theorem relative_inside_input_same_conv_witness :
    ∃ g, setupTiles { layers := [Layer.conv 1 3 6 6 6 6, Layer.conv 1 3 6 6 6 6] } 2 2 2 = some g ∧
      0 ≤ (relativeRegion (g.get 1 1 0)).startw ∧
      (relativeRegion (g.get 1 1 0)).endw ≤ (g.get 1 1 0).input.width - 1 ∧
      0 ≤ (relativeRegion (g.get 1 1 0)).starth ∧
      (relativeRegion (g.get 1 1 0)).endh ≤ (g.get 1 1 0).input.height - 1 ∧
      ∀ (α : Type) (data : List α) (layerc : Int), 0 ≤ layerc →
        (g.get 1 1 0).output.startw ≤ (g.get 1 1 0).output.endw →
        (g.get 1 1 0).output.starth ≤ (g.get 1 1 0).output.endh →
        (data.length : Int) = (g.get 1 1 0).input.width * (g.get 1 1 0).input.height * layerc →
        (cropDataFromRelative g 1 1 0 (g.get 1 1 0).input.height (g.get 1 1 0).input.width
          layerc data).1.isSome = true :=
  relative_inside_input_same_conv
    { layers := [Layer.conv 1 3 6 6 6 6, Layer.conv 1 3 6 6 6 6] } 2 2 2 6 6
    (by decide) (by decide) (by decide) (by decide) (by decide) (by decide) (by decide)
    (by decide) (by decide) (by decide)
    (by
      intro i ly hi hly
      have hcases : i = 0 ∨ i = 1 := by omega
      rcases hcases with rfl | rfl
      · have e : ly = Layer.conv 1 3 6 6 6 6 := (Option.some.inj hly).symm
        subst e
        decide
      · have e : ly = Layer.conv 1 3 6 6 6 6 := (Option.some.inj hly).symm
        subst e
        decide)
    1 1 0 (by decide) (by decide) (by decide)

/-! ## Index safety and single assignment in `cropData` -/

/-- C19: for a region with `0 ≤ startw ≤ endw < layerw`,
`0 ≤ starth ≤ endh < layerh`, derived width and height, and `layerc ≥ 0`, every
source index computed in the loops satisfies
`0 ≤ dataIdx < layerw * layerh * layerc` and every destination index satisfies
`0 ≤ croppedIdx < width * height * layerc`, which is the allocated element
count; on a source buffer of `layerw * layerh * layerc` elements no access of
`cropData` falls outside either buffer. -/
theorem cropData_index_safety (dims : TileDimensions) (layerh layerw layerc : Int)
    (hd : dims.derived)
    (hw : 0 ≤ dims.startw ∧ dims.startw ≤ dims.endw ∧ dims.endw < layerw)
    (hh : 0 ≤ dims.starth ∧ dims.starth ≤ dims.endh ∧ dims.endh < layerh)
    (hc : 0 ≤ layerc) :
    (∀ c h w : Int, 0 ≤ c → c < layerc → dims.starth ≤ h → h ≤ dims.endh →
      dims.startw ≤ w → w ≤ dims.endw →
      0 ≤ dataIdx layerh layerw c h w ∧ dataIdx layerh layerw c h w < layerw * layerh * layerc ∧
      0 ≤ croppedIdx dims c h w ∧ croppedIdx dims c h w < dims.width * dims.height * layerc) ∧
    ((toSizeT (dims.height * dims.width * layerc) : Nat) : Int) =
      dims.width * dims.height * layerc ∧
    (∀ (α : Type) (data : List α), (data.length : Int) = layerw * layerh * layerc →
      (cropData dims layerh layerw layerc data).isSome = true) := by
  obtain ⟨hdw, hdh⟩ := hd
  refine ⟨?_, ?_, ?_⟩
  · intro c h w c0 c1 r0 r1 w0 w1
    have b1 := layout_bounds (w - dims.startw) (h - dims.starth) c dims.width dims.height
      layerc (by omega) (by omega) (by omega) (by omega) c0 c1
    have b2 := layout_bounds w h c layerw layerh layerc (by omega) (by omega) (by omega)
      (by omega) c0 c1
    rw [croppedIdx_eq]
    exact ⟨b2.1, b2.2, b1.1, b1.2⟩
  · have hprod : 0 ≤ dims.height * dims.width * layerc :=
      mul_nonneg (mul_nonneg (by omega) (by omega)) hc
    rw [toSizeT_of_nonneg _ hprod]
    ring
  · intro α data hlen
    obtain ⟨dest, len, hrun, _⟩ :=
      cropData_spec dims layerh layerw layerc data ⟨hdw, hdh⟩ hw hh hc hlen
    rw [hrun]
    rfl

/-- Witness for C19: rows `[1,2]` x columns `[1,2]` of a 3 x 4 x 2 array. -/
theorem cropData_index_safety_witness :
    (∀ c h w : Int, 0 ≤ c → c < 2 → (TileDimensions.ofBounds 1 1 2 2).starth ≤ h →
      h ≤ (TileDimensions.ofBounds 1 1 2 2).endh →
      (TileDimensions.ofBounds 1 1 2 2).startw ≤ w → w ≤ (TileDimensions.ofBounds 1 1 2 2).endw →
      0 ≤ dataIdx 3 4 c h w ∧ dataIdx 3 4 c h w < 4 * 3 * 2 ∧
      0 ≤ croppedIdx (TileDimensions.ofBounds 1 1 2 2) c h w ∧
      croppedIdx (TileDimensions.ofBounds 1 1 2 2) c h w <
        (TileDimensions.ofBounds 1 1 2 2).width * (TileDimensions.ofBounds 1 1 2 2).height * 2) ∧
    ((toSizeT ((TileDimensions.ofBounds 1 1 2 2).height *
        (TileDimensions.ofBounds 1 1 2 2).width * 2) : Nat) : Int) =
      (TileDimensions.ofBounds 1 1 2 2).width * (TileDimensions.ofBounds 1 1 2 2).height * 2 ∧
    (∀ (α : Type) (data : List α), (data.length : Int) = 4 * 3 * 2 →
      (cropData (TileDimensions.ofBounds 1 1 2 2) 3 4 2 data).isSome = true) :=
  cropData_index_safety (TileDimensions.ofBounds 1 1 2 2) 3 4 2
    (by decide) (by decide) (by decide) (by decide)

theorem intRange_nodup (lo hi : Int) : (intRange lo hi).Nodup := by
  unfold intRange
  refine List.Nodup.map ?_ (List.nodup_range _)
  intro a b hab
  have : lo + (a : Int) = lo + (b : Int) := hab
  omega

theorem mem_cropIterations (dims : TileDimensions) (layerc : Int) (q : Int × Int × Int) :
    q ∈ cropIterations dims layerc ↔
      (0 ≤ q.1 ∧ q.1 < layerc) ∧ (dims.starth ≤ q.2.1 ∧ q.2.1 ≤ dims.endh) ∧
        (dims.startw ≤ q.2.2 ∧ q.2.2 ≤ dims.endw) := by
  obtain ⟨c, h, w⟩ := q
  unfold cropIterations
  rw [List.pair_mem_product, List.pair_mem_product, mem_intRange, mem_intRange, mem_intRange]
  constructor
  · rintro ⟨⟨a, b⟩, c, d⟩; exact ⟨⟨a, by omega⟩, c, d⟩
  · rintro ⟨⟨a, b⟩, c, d⟩; exact ⟨⟨a, by omega⟩, c, d⟩

/-- Every number below `A * B * C` is `a + A * (b + B * c)` for digits
`a < A`, `b < B`, `c < C`. -/
theorem layout_surjective (i A B C : Int) (hA : 0 < A) (hB : 0 < B) (h0 : 0 ≤ i)
    (h1 : i < A * B * C) :
    ∃ a b c : Int, 0 ≤ a ∧ a < A ∧ 0 ≤ b ∧ b < B ∧ 0 ≤ c ∧ c < C ∧ a + A * (b + B * c) = i := by
  have ht0 : 0 ≤ i / A := Int.ediv_nonneg h0 (le_of_lt hA)
  have ht1 : i / A < B * C := by
    apply Int.ediv_lt_of_lt_mul hA
    have : A * B * C = B * C * A := by ring
    omega
  have hc1 : i / A / B < C := by
    apply Int.ediv_lt_of_lt_mul hB
    have : B * C = C * B := by ring
    omega
  refine ⟨i % A, (i / A) % B, i / A / B, Int.emod_nonneg _ (ne_of_gt hA),
    Int.emod_lt_of_pos _ hA, Int.emod_nonneg _ (ne_of_gt hB), Int.emod_lt_of_pos _ hB,
    Int.ediv_nonneg ht0 (le_of_lt hB), hc1, ?_⟩
  rw [Int.emod_add_ediv (i / A) B, Int.emod_add_ediv i A]

/-- C20: for a region with `startw ≤ endw`, `starth ≤ endh`, derived width and
height, and `layerc ≥ 0`, the map `(c, h, w) ↦ croppedIdx` sends the index
triples of the loops into `{0, ..., width * height * layerc - 1}`, and every
number of that range is the image of exactly one triple: a bijection.  The
loops visit exactly those triples and no destination index twice, and every
cell of the buffer `cropData` returns has been written. -/
theorem cropData_writes_once (dims : TileDimensions) (layerc : Int) (hd : dims.derived)
    (hw : dims.startw ≤ dims.endw) (hh : dims.starth ≤ dims.endh) (hc : 0 ≤ layerc) :
    (∀ c h w : Int, 0 ≤ c → c < layerc → dims.starth ≤ h → h ≤ dims.endh →
      dims.startw ≤ w → w ≤ dims.endw →
      0 ≤ croppedIdx dims c h w ∧ croppedIdx dims c h w < dims.width * dims.height * layerc) ∧
    (∀ i : Int, 0 ≤ i → i < dims.width * dims.height * layerc →
      ∃ c h w : Int, (0 ≤ c ∧ c < layerc ∧ dims.starth ≤ h ∧ h ≤ dims.endh ∧
        dims.startw ≤ w ∧ w ≤ dims.endw) ∧ croppedIdx dims c h w = i ∧
        ∀ c' h' w' : Int, 0 ≤ c' → c' < layerc → dims.starth ≤ h' → h' ≤ dims.endh →
          dims.startw ≤ w' → w' ≤ dims.endw → croppedIdx dims c' h' w' = i →
          c' = c ∧ h' = h ∧ w' = w) ∧
    (∀ q : Int × Int × Int, q ∈ cropIterations dims layerc ↔
      (0 ≤ q.1 ∧ q.1 < layerc) ∧ (dims.starth ≤ q.2.1 ∧ q.2.1 ≤ dims.endh) ∧
        (dims.startw ≤ q.2.2 ∧ q.2.2 ≤ dims.endw)) ∧
    ((cropIterations dims layerc).map fun q => croppedIdx dims q.1 q.2.1 q.2.2).Nodup ∧
    (∀ (α : Type) (data : List α) (layerh layerw : Int), 0 ≤ dims.startw → dims.endw < layerw →
      0 ≤ dims.starth → dims.endh < layerh →
      (data.length : Int) = layerw * layerh * layerc →
      ∃ dest len, cropData dims layerh layerw layerc data = some (dest, len) ∧
        (len : Int) = dims.width * dims.height * layerc ∧ dest.length = len ∧
        ∀ i : Nat, i < len → ∃ v, dest[i]? = some (some v)) := by
  obtain ⟨hdw, hdh⟩ := hd
  have hinj : ∀ c h w c' h' w' : Int, dims.starth ≤ h → h ≤ dims.endh → dims.startw ≤ w →
      w ≤ dims.endw → dims.starth ≤ h' → h' ≤ dims.endh → dims.startw ≤ w' → w' ≤ dims.endw →
      croppedIdx dims c h w = croppedIdx dims c' h' w' → c = c' ∧ h = h' ∧ w = w' := by
    intro c h w c' h' w' r0 r1 w0 w1 r0' r1' w0' w1' e
    rw [croppedIdx_eq, croppedIdx_eq] at e
    obtain ⟨e1, e2, e3⟩ := layout_injective _ _ _ _ _ _ dims.width dims.height
      (by omega) (by omega) (by omega) (by omega) (by omega) (by omega) (by omega) (by omega) e
    exact ⟨e3, by omega, by omega⟩
  have hsurj : ∀ i : Int, 0 ≤ i → i < dims.width * dims.height * layerc →
      ∃ c h w : Int, (0 ≤ c ∧ c < layerc ∧ dims.starth ≤ h ∧ h ≤ dims.endh ∧
        dims.startw ≤ w ∧ w ≤ dims.endw) ∧ croppedIdx dims c h w = i := by
    intro i i0 i1
    obtain ⟨a, b, c, a0, a1, b0, b1, c0, c1, e⟩ :=
      layout_surjective i dims.width dims.height layerc (by omega) (by omega) i0 i1
    refine ⟨c, dims.starth + b, dims.startw + a, ⟨c0, c1, by omega, by omega, by omega, by omega⟩, ?_⟩
    rw [croppedIdx_eq, ← e]
    have e1 : dims.startw + a - dims.startw = a := by ring
    have e2 : dims.starth + b - dims.starth = b := by ring
    rw [e1, e2]
  refine ⟨?_, ?_, mem_cropIterations dims layerc, ?_, ?_⟩
  · intro c h w c0 c1 r0 r1 w0 w1
    have b1 := layout_bounds (w - dims.startw) (h - dims.starth) c dims.width dims.height
      layerc (by omega) (by omega) (by omega) (by omega) c0 c1
    rw [croppedIdx_eq]
    exact b1
  · intro i i0 i1
    obtain ⟨c, h, w, hin, e⟩ := hsurj i i0 i1
    refine ⟨c, h, w, hin, e, ?_⟩
    intro c' h' w' _ _ r0' r1' w0' w1' e'
    obtain ⟨_, _, r0, r1, w0, w1⟩ := hin
    exact hinj c' h' w' c h w r0' r1' w0' w1' r0 r1 w0 w1 (e'.trans e.symm)
  · refine List.Nodup.map_on ?_ ?_
    · intro q hq q' hq' e
      obtain ⟨_, ⟨r0, r1⟩, w0, w1⟩ := (mem_cropIterations dims layerc q).mp hq
      obtain ⟨_, ⟨r0', r1'⟩, w0', w1'⟩ := (mem_cropIterations dims layerc q').mp hq'
      obtain ⟨e1, e2, e3⟩ := hinj _ _ _ _ _ _ r0 r1 w0 w1 r0' r1' w0' w1' e
      obtain ⟨c, h, w⟩ := q
      obtain ⟨c', h', w'⟩ := q'
      have e1' : c = c' := e1
      have e2' : h = h' := e2
      have e3' : w = w' := e3
      rw [e1', e2', e3']
    · unfold cropIterations
      exact List.Nodup.product (intRange_nodup _ _)
        (List.Nodup.product (intRange_nodup _ _) (intRange_nodup _ _))
  · intro α data layerh layerw sw0 ew1 sh0 eh1 hlen
    obtain ⟨dest, len, hrun, hl, hdl, hval⟩ := cropData_spec dims layerh layerw layerc data
      ⟨hdw, hdh⟩ ⟨sw0, hw, ew1⟩ ⟨sh0, hh, eh1⟩ hc hlen
    refine ⟨dest, len, hrun, hl, hdl, ?_⟩
    intro i hi
    obtain ⟨c, h, w, ⟨c0, c1, r0, r1, w0, w1⟩, e⟩ := hsurj (i : Int) (by omega) (by omega)
    obtain ⟨_, _, _, _, v, _, hv⟩ := hval c h w c0 c1 r0 r1 w0 w1
    rw [e] at hv
    exact ⟨v, by simpa using hv⟩

/-- Witness for C20: rows `[1,2]` x columns `[1,2]`, two channels; the eight
destination indices are visited in the order `0, 1, ..., 7`. -/
theorem cropData_writes_once_witness :
    ((cropIterations (TileDimensions.ofBounds 1 1 2 2) 2).map
        fun q => croppedIdx (TileDimensions.ofBounds 1 1 2 2) q.1 q.2.1 q.2.2).Nodup ∧
    (cropIterations (TileDimensions.ofBounds 1 1 2 2) 2).map
        (fun q => croppedIdx (TileDimensions.ofBounds 1 1 2 2) q.1 q.2.1 q.2.2) =
      [0, 1, 2, 3, 4, 5, 6, 7] :=
  ⟨(cropData_writes_once (TileDimensions.ofBounds 1 1 2 2) 2 (by decide) (by decide) (by decide)
      (by decide)).2.2.2.1, by decide⟩

/-! ## Queries and what the accessors do to the grid -/

theorem Grid.get_of_find_none (g : Grid) (h w l : Nat) (hf : g.find h w l = none) :
    g.get h w l = LayerTile.empty := by
  unfold Grid.get
  rw [hf]
  rfl

theorem Grid.get_of_find_some (g : Grid) (h w l : Nat) (t : LayerTile)
    (hf : g.find h w l = some t) : g.get h w l = t := by
  unfold Grid.get
  rw [hf]
  rfl

/-- Evaluating `tiles_[h][w][l]` on a key that is present leaves the grid as
it is. -/
theorem Grid.touch_of_find_some (g : Grid) (h w l : Nat) (t : LayerTile)
    (hf : g.find h w l = some t) : g.touch h w l = g := by
  have hget := Grid.get_of_find_some g h w l t hf
  cases g with
  | mk f =>
    unfold Grid.touch Grid.set
    rw [hget]
    congr 1
    funext h' w' l'
    by_cases hk : h' = h ∧ w' = w ∧ l' = l
    · obtain ⟨rfl, rfl, rfl⟩ := hk
      simp only [and_self, if_true]
      exact hf.symm
    · rw [if_neg hk]

/-- Evaluating `tiles_[h][w][l]` on a key that is absent stores a
default-constructed entry under it and changes no other key. -/
theorem Grid.touch_of_find_none (g : Grid) (h w l : Nat) (hf : g.find h w l = none) :
    (g.touch h w l).find h w l = some LayerTile.empty ∧
    ∀ h' w' l', ¬ (h' = h ∧ w' = w ∧ l' = l) → (g.touch h w l).find h' w' l' = g.find h' w' l' := by
  have hget := Grid.get_of_find_none g h w l hf
  unfold Grid.touch
  rw [hget]
  constructor
  · rw [Grid.find_set]
    simp
  · intro h' w' l' hk
    rw [Grid.find_set, if_neg hk]

/-- C11, as the code behaves at a concrete input: on the 2 x 2 x 1 grid of a
6x6 convolution, the queries at the out-of-range triples `(2, 0, 0)`,
`(0, 5, 0)` and `(0, 0, 1)` do not fail; they return the all-zero region. -/
theorem query_out_of_range_counterexample :
    ∃ g, setupTiles { layers := [Layer.conv 1 3 6 6 6 6] } 2 2 1 = some g ∧
      (getTileInputDimensions g 2 0 0).1 = TileDimensions.zero ∧
      (getTileOutputDimensions g 0 5 0).1 = TileDimensions.zero ∧
      (getTileInputDimensions g 0 0 1).1 = TileDimensions.zero ∧
      (getTileOutputDimensions g 0 0 1).1 = TileDimensions.zero := by
  have e : (setupTiles { layers := [Layer.conv 1 3 6 6 6 6] } 2 2 1).map
      (fun g => ((getTileInputDimensions g 2 0 0).1, (getTileOutputDimensions g 0 5 0).1,
        (getTileInputDimensions g 0 0 1).1, (getTileOutputDimensions g 0 0 1).1)) =
      some (TileDimensions.zero, TileDimensions.zero, TileDimensions.zero,
        TileDimensions.zero) := rfl
  cases hg : setupTiles { layers := [Layer.conv 1 3 6 6 6 6] } 2 2 1 with
  | none =>
    rw [hg] at e
    cases e
  | some g =>
    rw [hg] at e
    simp only [Option.map_some', Option.some.injEq, Prod.mk.injEq] at e
    exact ⟨g, rfl, e⟩

/-- C11, amended: on the grid built by `setupTiles` (both stride computations
being defined), for an in-range triple `getTileInputDimensions` and
`getTileOutputDimensions` return exactly the input and the output region stored
under it; for a triple with `row ≥ H` or `col ≥ W` or `layer ≥ L` they do not
fail: no entry is stored under the triple and both return the default region,
all of whose fields are zero. -/
theorem queries_return (m : Model) (W H L : Nat) (h1 : 1 ≤ L) (hlen : L ≤ m.layers.length)
    (h32 : L < 4294967296) (hs : stridesDefined m W H L = true) (h w l : Nat) :
    ∃ g, setupTiles m W H L = some g ∧
      ((h < H ∧ w < W ∧ l < L) →
        ∃ t, g.find h w l = some t ∧ (getTileInputDimensions g h w l).1 = t.input ∧
          (getTileOutputDimensions g h w l).1 = t.output) ∧
      (¬ (h < H ∧ w < W ∧ l < L) →
        g.find h w l = none ∧ (getTileInputDimensions g h w l).1 = TileDimensions.zero ∧
          (getTileOutputDimensions g h w l).1 = TileDimensions.zero) := by
  obtain ⟨g, _, _, _, _, _, _, hg, hkeys, _⟩ := setupTiles_spec m W H L h1 hlen (by omega) hs
  refine ⟨g, hg, ?_, ?_⟩
  · intro hin
    obtain ⟨t, ht⟩ := Option.isSome_iff_exists.mp ((hkeys h w l).mpr hin)
    have hget := Grid.get_of_find_some g h w l t ht
    refine ⟨t, ht, ?_, ?_⟩
    · show (g.get h w l).input = t.input
      rw [hget]
    · show (g.get h w l).output = t.output
      rw [hget]
  · intro hout
    have hnone : g.find h w l = none := by
      cases hf : g.find h w l with
      | none => rfl
      | some t =>
        exact absurd ((hkeys h w l).mp (by rw [hf]; rfl)) hout
    have hget := Grid.get_of_find_none g h w l hnone
    refine ⟨hnone, ?_, ?_⟩
    · show (g.get h w l).input = TileDimensions.zero
      rw [hget]
      rfl
    · show (g.get h w l).output = TileDimensions.zero
      rw [hget]
      rfl

/-- Witness for C11 (amended): the triple `(2, 0, 0)` of a 2 x 2 x 1 grid. -/
theorem queries_return_witness :
    ∃ g, setupTiles { layers := [Layer.conv 1 3 6 6 6 6] } 2 2 1 = some g ∧
      ((2 < 2 ∧ 0 < 2 ∧ 0 < 1) →
        ∃ t, g.find 2 0 0 = some t ∧ (getTileInputDimensions g 2 0 0).1 = t.input ∧
          (getTileOutputDimensions g 2 0 0).1 = t.output) ∧
      (¬ (2 < 2 ∧ 0 < 2 ∧ 0 < 1) →
        g.find 2 0 0 = none ∧ (getTileInputDimensions g 2 0 0).1 = TileDimensions.zero ∧
          (getTileOutputDimensions g 2 0 0).1 = TileDimensions.zero) :=
  queries_return { layers := [Layer.conv 1 3 6 6 6 6] } 2 2 1 (by decide) (by decide) (by decide)
    (by decide) 2 0 0

/-- C13, as the code behaves at a concrete input: on the 2 x 2 x 1 grid of a
6x6 convolution the key `(5, 5, 5)` is absent; after any of the four calls at
`(5, 5, 5)` the key is present, holding a default-constructed entry. -/
theorem accessor_inserts_counterexample :
    ∃ g, setupTiles { layers := [Layer.conv 1 3 6 6 6 6] } 2 2 1 = some g ∧
      g.find 5 5 5 = none ∧
      (getTileInputDimensions g 5 5 5).2.find 5 5 5 = some LayerTile.empty ∧
      (getTileOutputDimensions g 5 5 5).2.find 5 5 5 = some LayerTile.empty ∧
      (cropDataFromInput g 5 5 5 6 6 1 (List.range 36)).2.find 5 5 5 = some LayerTile.empty ∧
      (cropDataFromRelative g 5 5 5 6 6 1 (List.range 36)).2.find 5 5 5 =
        some LayerTile.empty := by
  have e : (setupTiles { layers := [Layer.conv 1 3 6 6 6 6] } 2 2 1).map
      (fun g => (g.find 5 5 5, (getTileInputDimensions g 5 5 5).2.find 5 5 5,
        (getTileOutputDimensions g 5 5 5).2.find 5 5 5,
        (cropDataFromInput g 5 5 5 6 6 1 (List.range 36)).2.find 5 5 5,
        (cropDataFromRelative g 5 5 5 6 6 1 (List.range 36)).2.find 5 5 5)) =
      some (none, some LayerTile.empty, some LayerTile.empty, some LayerTile.empty,
        some LayerTile.empty) := rfl
  cases hg : setupTiles { layers := [Layer.conv 1 3 6 6 6 6] } 2 2 1 with
  | none =>
    rw [hg] at e
    cases e
  | some g =>
    rw [hg] at e
    simp only [Option.map_some', Option.some.injEq, Prod.mk.injEq] at e
    exact ⟨g, rfl, e⟩

/-- C13, amended: on the grid built by `setupTiles` (both stride computations
being defined), for every in-range `(h, w, l)` each of `getTileInputDimensions`, `getTileOutputDimensions`,
`cropDataFromInput` and `cropDataFromRelative` leaves the grid unchanged; for a
triple that is not in range each of them stores a default-constructed entry
under that triple and changes no other key. -/
theorem accessors_grid_effect (m : Model) (W H L : Nat) (h1 : 1 ≤ L)
    (hlen : L ≤ m.layers.length) (h32 : L < 4294967296) (hs : stridesDefined m W H L = true)
    (h w l : Nat) :
    ∃ g, setupTiles m W H L = some g ∧
      (∀ (α : Type) (layerh layerw layerc : Int) (data : List α),
        (getTileInputDimensions g h w l).2 = g.touch h w l ∧
        (getTileOutputDimensions g h w l).2 = g.touch h w l ∧
        (cropDataFromInput g h w l layerh layerw layerc data).2 = g.touch h w l ∧
        (cropDataFromRelative g h w l layerh layerw layerc data).2 = g.touch h w l) ∧
      ((h < H ∧ w < W ∧ l < L) → g.touch h w l = g) ∧
      (¬ (h < H ∧ w < W ∧ l < L) →
        g.find h w l = none ∧ (g.touch h w l).find h w l = some LayerTile.empty ∧
        ∀ h' w' l', ¬ (h' = h ∧ w' = w ∧ l' = l) →
          (g.touch h w l).find h' w' l' = g.find h' w' l') := by
  obtain ⟨g, _, _, _, _, _, _, hg, hkeys, _⟩ := setupTiles_spec m W H L h1 hlen (by omega) hs
  refine ⟨g, hg, fun _ _ _ _ _ => ⟨rfl, rfl, rfl, rfl⟩, ?_, ?_⟩
  · intro hin
    obtain ⟨t, ht⟩ := Option.isSome_iff_exists.mp ((hkeys h w l).mpr hin)
    exact Grid.touch_of_find_some g h w l t ht
  · intro hout
    have hnone : g.find h w l = none := by
      cases hf : g.find h w l with
      | none => rfl
      | some t =>
        exact absurd ((hkeys h w l).mp (by rw [hf]; rfl)) hout
    exact ⟨hnone, Grid.touch_of_find_none g h w l hnone⟩

/-- Witness for C13 (amended): tile `(1, 0)` at layer 0 of a 2 x 2 x 1 grid. -/
theorem accessors_grid_effect_witness :
    ∃ g, setupTiles { layers := [Layer.conv 1 3 6 6 6 6] } 2 2 1 = some g ∧
      (getTileInputDimensions g 1 0 0).2 = g ∧ (getTileOutputDimensions g 1 0 0).2 = g ∧
      (cropDataFromInput g 1 0 0 6 6 1 (List.range 36)).2 = g ∧
      (cropDataFromRelative g 1 0 0 6 6 1 (List.range 36)).2 = g :=
  match accessors_grid_effect { layers := [Layer.conv 1 3 6 6 6 6] } 2 2 1 (by decide) (by decide)
      (by decide) (by decide) 1 0 0 with
  | ⟨g, hg, hcalls, hin, _⟩ =>
    ⟨g, hg, (hcalls Nat 6 6 1 (List.range 36)).1.trans (hin (by decide)),
      (hcalls Nat 6 6 1 (List.range 36)).2.1.trans (hin (by decide)),
      (hcalls Nat 6 6 1 (List.range 36)).2.2.1.trans (hin (by decide)),
      (hcalls Nat 6 6 1 (List.range 36)).2.2.2.trans (hin (by decide))⟩

end Ftp
